import Mathlib

/-!
# Shallow embedding of `assets/js/map_hook.js`

The hook object `MapHook` keeps a camera `(cx, cy, zoom)`, a map from tile keys
to `<img>` elements and some gesture state, and mutates them from DOM event
handlers.  Every handler is embedded as a function `State → … → State`.

Conventions of the embedding.

* JavaScript numbers are modelled by exact rationals (`ℚ`); values that the
  code only ever produces as integers (`zoom`, tile indices, `1 << zoom`) are
  `Int`.  The 32-bit behaviour of `<<` is modelled explicitly (`toInt32`, `shl`).
* `container.clientWidth` / `clientHeight` are DOM `long`s that are never
  negative, hence `Nat`.  The container is an input of each handler that
  reads it.
* The key string `z/x/y` of a tile is modelled by the triple it is printed
  from; the JavaScript `Map` is an association list in insertion order.
* An `<img>` element is a record; its DOM identity is the field `id`, drawn
  from the counter `State.created` of elements created so far.
* `Math.sqrt` / `Math.log2` only occur in the pinch gesture; touch distances
  are carried as their squares (see `_touchDist`) and the zoom delta is the
  real-number value (see `pinchZoomDelta`), which the program's double
  arithmetic can miss by one level near the rounding boundaries.  Nothing
  below depends on the value of the delta.
-/

namespace MapHook

/-! ## Constants (lines 1-4) -/

def TILE_SIZE : Int := 256
def MIN_ZOOM : Int := 0
def MAX_ZOOM : Int := 45
def SCROLL_THRESHOLD : ℚ := 300

/-! ## JavaScript integer operators -/

/-- ECMAScript `ToInt32` on an integer: reduce modulo `2^32` into
`[-2^31, 2^31)`. -/
def toInt32 (n : Int) : Int :=
  let m := n % 4294967296
  if 2147483648 ≤ m then m - 4294967296 else m

/-- ECMAScript `a << b` on integer operands: the left operand is taken
`ToInt32`, the shift count is `b` modulo 32, the result is taken `ToInt32`. -/
def shl (a b : Int) : Int :=
  toInt32 (toInt32 a * 2 ^ (b % 32).toNat)

/-- The expression `TILE_SIZE * (1 << this.zoom)` (lines 65, 162, 196, 205, 236). -/
def ws (zoom : Int) : Int := TILE_SIZE * shl 1 zoom

/-- The expression `1 << this.zoom` (line 68). -/
def nt (zoom : Int) : Int := shl 1 zoom

/-! ## Data model -/

/-- The key `z/x/y` of a tile. -/
structure TileKey where
  z : Int
  tx : Int
  ty : Int
  deriving DecidableEq, Repr

/-- The load address `/tiles/z/x/y/dpr` of a tile image. -/
structure TileSrc where
  z : Int
  tx : Int
  ty : Int
  dpr : Nat
  deriving DecidableEq, Repr

/-- An `<img>` element: its identity, its `src`, and `style.left` / `style.top`
in pixels (`none` while unset). -/
structure Img where
  id : Nat
  src : TileSrc
  left : Option ℚ
  top : Option ℚ
  deriving DecidableEq, Repr

/-- The fields of `this` that the handlers read and write. -/
structure State where
  cx : ℚ
  cy : ℚ
  zoom : Int
  tiles : List (TileKey × Img)
  dragging : Bool
  lastX : ℚ
  lastY : ℚ
  /-- `null`, or the touch distance at pinch start (stored squared). -/
  pinchStartDist : Option ℚ
  pinchStartZoom : Int
  scrollAccum : ℚ
  dpr : Nat
  /-- Number of `<img>` elements created so far. -/
  created : Nat
  deriving DecidableEq, Repr

/-- What the handlers read from `this.container`: `clientWidth`,
`clientHeight` and the `left` / `top` of `getBoundingClientRect()`. -/
structure Container where
  clientWidth : Nat
  clientHeight : Nat
  rectLeft : ℚ
  rectTop : ℚ
  deriving DecidableEq, Repr

structure MouseEvent where
  button : Int
  clientX : ℚ
  clientY : ℚ
  deriving DecidableEq, Repr

structure WheelEvent where
  deltaY : ℚ
  clientX : ℚ
  clientY : ℚ
  deriving DecidableEq, Repr

structure Touch where
  clientX : ℚ
  clientY : ℚ
  deriving DecidableEq, Repr

structure TouchEvent where
  touches : List Touch
  deriving DecidableEq, Repr

/-! ## `Map` and `Set` operations used by `_render` -/

/-- `Map.prototype.get`. -/
def mapGet (m : List (TileKey × Img)) (k : TileKey) : Option Img :=
  match m with
  | [] => none
  | (k', v) :: rest => if k' = k then some v else mapGet rest k

/-- `Map.prototype.set`: overwrite in place when the key is present, append
otherwise. -/
def mapSet (m : List (TileKey × Img)) (k : TileKey) (v : Img) : List (TileKey × Img) :=
  match m with
  | [] => [(k, v)]
  | (k', v') :: rest => if k' = k then (k', v) :: rest else (k', v') :: mapSet rest k v

/-- `Set.prototype.add`. -/
def setAdd (s : List TileKey) (k : TileKey) : List TileKey :=
  if k ∈ s then s else s ++ [k]

/-- `Set.prototype.has`. -/
def setHas (s : List TileKey) (k : TileKey) : Bool := decide (k ∈ s)

/-! ## Rendering (lines 62-134) -/

/-- The values of a `for (let i = lo; i <= hi; i++)` loop variable. -/
def loopRange (lo hi : Int) : List Int :=
  (List.range (hi + 1 - lo).toNat).map (fun (i : Nat) => lo + (i : Int))

def topLeftX (s : State) (c : Container) : ℚ :=
  s.cx * (ws s.zoom : ℚ) - (c.clientWidth : ℚ) / 2

def topLeftY (s : State) (c : Container) : ℚ :=
  s.cy * (ws s.zoom : ℚ) - (c.clientHeight : ℚ) / 2

/-- Lines 83 and 90. -/
def tMinX (s : State) (c : Container) : Int :=
  max 0 ⌊topLeftX s c / (TILE_SIZE : ℚ)⌋

/-- Lines 84 and 91. -/
def tMinY (s : State) (c : Container) : Int :=
  max 0 ⌊topLeftY s c / (TILE_SIZE : ℚ)⌋

/-- Lines 85 and 92. -/
def tMaxX (s : State) (c : Container) : Int :=
  min (nt s.zoom - 1) ⌊(topLeftX s c + (c.clientWidth : ℚ)) / (TILE_SIZE : ℚ)⌋

/-- Lines 86 and 93. -/
def tMaxY (s : State) (c : Container) : Int :=
  min (nt s.zoom - 1) ⌊(topLeftY s c + (c.clientHeight : ℚ)) / (TILE_SIZE : ℚ)⌋

/-- What the two nested loops of `_render` thread through their iterations:
the `needed` set, the tile map and the element counter. -/
structure RenderAcc where
  needed : List TileKey
  tiles : List (TileKey × Img)
  created : Nat
  deriving DecidableEq, Repr

/-- One iteration of the inner loop body (lines 101-120). -/
def renderTile (s : State) (c : Container) (ty : Int) (acc : RenderAcc) (tx : Int) :
    RenderAcc :=
  let key : TileKey := ⟨s.zoom, tx, ty⟩
  let needed := setAdd acc.needed key
  let left : ℚ := (tx * TILE_SIZE : Int) - topLeftX s c
  let top : ℚ := (ty * TILE_SIZE : Int) - topLeftY s c
  match mapGet acc.tiles key with
  | some img =>
    { needed := needed
      tiles := mapSet acc.tiles key { img with left := some left, top := some top }
      created := acc.created }
  | none =>
    let img : Img := { id := acc.created, src := ⟨s.zoom, tx, ty, s.dpr⟩, left := none, top := none }
    let tiles := mapSet acc.tiles key img
    { needed := needed
      tiles := mapSet tiles key { img with left := some left, top := some top }
      created := acc.created + 1 }

/-- The inner loop (lines 100-121) for one `ty`. -/
def renderRow (s : State) (c : Container) (acc : RenderAcc) (ty : Int) : RenderAcc :=
  (loopRange (tMinX s c) (tMaxX s c)).foldl (renderTile s c ty) acc

/-- The nested loops (lines 97-122), started from the current tile map. -/
def renderLoop (s : State) (c : Container) : RenderAcc :=
  (loopRange (tMinY s c) (tMaxY s c)).foldl (renderRow s c)
    { needed := [], tiles := s.tiles, created := s.created }

/-- The set `needed` at the end of the loops of `_render`. -/
def needed (s : State) (c : Container) : List TileKey :=
  (renderLoop s c).needed

/-- `_render` (lines 62-134): the loops, then the eviction loop
(lines 126-131).  The status line written by `_updateStatus` is not part of
the state. -/
def _render (s : State) (c : Container) : State :=
  let acc := renderLoop s c
  { s with
    tiles := acc.tiles.filter (fun kv => setHas acc.needed kv.1)
    created := acc.created }

/-! ## Mouse events (lines 146-172) -/

def _handleMouseDown (s : State) (e : MouseEvent) : State :=
  if e.button ≠ 0 then s
  else { s with dragging := true, lastX := e.clientX, lastY := e.clientY }

def _handleMouseMove (s : State) (c : Container) (e : MouseEvent) : State :=
  if !s.dragging then s
  else
    let dx := e.clientX - s.lastX
    let dy := e.clientY - s.lastY
    let s1 := { s with lastX := e.clientX, lastY := e.clientY }
    let w : ℚ := ws s1.zoom
    _render { s1 with cx := s1.cx - dx / w, cy := s1.cy - dy / w } c

def _handleMouseUp (s : State) : State :=
  if !s.dragging then s else { s with dragging := false }

/-! ## Wheel zoom (lines 176-210) -/

/-- Lines 180-183: the accumulator after the direction-change reset and the
addition of `deltaY`. -/
def wheelAccum (s : State) (e : WheelEvent) : ℚ :=
  (if (e.deltaY > 0 ∧ s.scrollAccum < 0) ∨ (e.deltaY < 0 ∧ s.scrollAccum > 0) then 0
   else s.scrollAccum) + e.deltaY

/-- Line 187. -/
def wheelZoomDelta (accum : ℚ) : Int := if accum > 0 then -1 else 1

/-- The clamp `Math.max(MIN_ZOOM, Math.min(MAX_ZOOM, z))` (lines 202, 245). -/
def clampZoom (z : Int) : Int := max MIN_ZOOM (min MAX_ZOOM z)

/-- Lines 197-199: the plane coordinate under the container-local pixel
column `mouseX`, `(centerPxX - cw / 2 + mouseX) / ws`. -/
def mouseWorldX (s : State) (c : Container) (mouseX : ℚ) : ℚ :=
  (s.cx * (ws s.zoom : ℚ) - (c.clientWidth : ℚ) / 2 + mouseX) / (ws s.zoom : ℚ)

/-- Lines 198-200: the plane coordinate under the container-local pixel row
`mouseY`, `(centerPxY - ch / 2 + mouseY) / ws`. -/
def mouseWorldY (s : State) (c : Container) (mouseY : ℚ) : ℚ :=
  (s.cy * (ws s.zoom : ℚ) - (c.clientHeight : ℚ) / 2 + mouseY) / (ws s.zoom : ℚ)

def _handleWheel (s : State) (c : Container) (e : WheelEvent) : State :=
  let accum := wheelAccum s e
  if |accum| < SCROLL_THRESHOLD then { s with scrollAccum := accum }
  else
    let zoomDelta := wheelZoomDelta accum
    let s1 := { s with scrollAccum := 0 }
    let mouseX := e.clientX - c.rectLeft
    let mouseY := e.clientY - c.rectTop
    let cw : ℚ := c.clientWidth
    let ch : ℚ := c.clientHeight
    let newZoom := clampZoom (s1.zoom + zoomDelta)
    if newZoom = s1.zoom then s1
    else
      let newWs : ℚ := ws newZoom
      _render
        { s1 with
          cx := mouseWorldX s1 c mouseX + (cw / 2 - mouseX) / newWs
          cy := mouseWorldY s1 c mouseY + (ch / 2 - mouseY) / newWs
          zoom := newZoom } c

/-! ## Touch events (lines 214-265) -/

/-- `_touchDist` (lines 261-265), returning the square `dx * dx + dy * dy` of
the distance: the square root is not rational, and every use of the distance
(the truthiness test of line 241 and the ratio of line 243) can be read off
its square.  The handlers call it with exactly two touches. -/
def _touchDist (touches : List Touch) : ℚ :=
  match touches with
  | t0 :: t1 :: _ =>
    let dx := t0.clientX - t1.clientX
    let dy := t0.clientY - t1.clientY
    dx * dx + dy * dy
  | _ => 0

/-- `Math.round(Math.log2(ratio))` (line 244) as a function of
`r2 = ratio * ratio`, evaluated over the reals.  `none` stands for `-Infinity`
(`ratio = 0`).  For `r2 > 0`, `log2 ratio = log2 r2 / 2` and `Math.round`
rounds half up, so the result is `⌊(⌊log2 r2⌋ + 1) / 2⌋`.

This is an idealisation.  The program evaluates `Math.sqrt`, the division and
`Math.log2` in double precision, and `Math.log2` is approximated by the
platform, so for a ratio within rounding error of some `2^(k + 1/2)` the
program's delta can differ by one from this value: for a pinch from the
touches `(0,0), (3,0)` to the touches `(0,0), (3,3)` the real ratio is `√2`
and this value is `1`, while the doubles give a logarithm just below `1/2` and
the delta `0`.  Below, only facts that hold whatever the value of the delta
are derived from this definition. -/
def pinchZoomDelta (r2 : ℚ) : Option Int :=
  if r2 ≤ 0 then none else some ((Int.log 2 r2 + 1) / 2)

/-- Lines 245-247: `Math.max(MIN_ZOOM, Math.min(MAX_ZOOM, pinchStartZoom + zoomDelta))`,
where a `zoomDelta` of `-Infinity` makes the sum `-Infinity`. -/
def pinchNewZoom (pinchStartZoom : Int) (zoomDelta : Option Int) : Int :=
  match zoomDelta with
  | some d => clampZoom (pinchStartZoom + d)
  | none => MIN_ZOOM

def _handleTouchStart (s : State) (e : TouchEvent) : State :=
  match e.touches with
  | [t0] =>
    { s with dragging := true, pinchStartDist := none, lastX := t0.clientX, lastY := t0.clientY }
  | [_, _] =>
    { s with
      dragging := false
      pinchStartDist := some (_touchDist e.touches)
      pinchStartZoom := s.zoom }
  | _ => s

def _handleTouchMove (s : State) (c : Container) (e : TouchEvent) : State :=
  match e.touches, s.dragging, s.pinchStartDist with
  | [t0], true, _ =>
    let dx := t0.clientX - s.lastX
    let dy := t0.clientY - s.lastY
    let s1 := { s with lastX := t0.clientX, lastY := t0.clientY }
    let w : ℚ := ws s1.zoom
    _render { s1 with cx := s1.cx - dx / w, cy := s1.cy - dy / w } c
  | [_, _], _, some startDist =>
    if startDist = 0 then s
    else
      let dist := _touchDist e.touches
      let zoomDelta := pinchZoomDelta (dist / startDist)
      let newZoom := pinchNewZoom s.pinchStartZoom zoomDelta
      if newZoom ≠ s.zoom then _render { s with zoom := newZoom } c else s
  | _, _, _ => s

def _handleTouchEnd (s : State) : State :=
  { s with dragging := false, pinchStartDist := none }

/-! ## Predicates used to state what `_render` does to the tile map -/

/-- The element `img` carries the position that line 119-120 write for the
tile `k`. -/
def Positioned (s : State) (c : Container) (k : TileKey) (img : Img) : Prop :=
  img.left = some (((k.tx * TILE_SIZE : Int) : ℚ) - topLeftX s c)
  ∧ img.top = some (((k.ty * TILE_SIZE : Int) : ℚ) - topLeftY s c)

/-- Where the element `img'` found under key `k` during or after a pass that
started in state `s` comes from: either it is the element that `s.tiles`
already held under `k` (same identity, same load address), or `s.tiles` held
nothing under `k` and `img'` was created during the pass (its identity is one
of the counter values `s.created, …, bound - 1`) with the load address of `k`. -/
def HandleOrigin (s : State) (bound : Nat) (k : TileKey) (img' : Img) : Prop :=
  (∃ img, mapGet s.tiles k = some img ∧ img'.id = img.id ∧ img'.src = img.src)
  ∨ (mapGet s.tiles k = none ∧ s.created ≤ img'.id ∧ img'.id < bound
      ∧ img'.src = ⟨k.z, k.tx, k.ty, s.dpr⟩)

/-- Invariant of the loops of `_render` started in state `s`: keys not yet
needed are mapped as in `s.tiles`, and every needed key is mapped to a
positioned element of known origin. -/
def RenderInv (s : State) (c : Container) (acc : RenderAcc) : Prop :=
  s.created ≤ acc.created
  ∧ (∀ k, k ∉ acc.needed → mapGet acc.tiles k = mapGet s.tiles k)
  ∧ (∀ k, k ∈ acc.needed →
      ∃ img', mapGet acc.tiles k = some img' ∧ Positioned s c k img'
        ∧ HandleOrigin s acc.created k img')

/-- Number of keys of the list `n` under which `s.tiles` holds nothing. -/
def countAbsent (s : State) (n : List TileKey) : Nat :=
  (n.filter (fun k => (mapGet s.tiles k).isNone)).length

/-! ## Sequences of `_render` calls -/

/-- The camera and the container that one `_render` call finds: between two
calls the handlers may have changed `cx`, `cy`, `zoom`, and the container may
have been resized. -/
structure Frame where
  cx : ℚ
  cy : ℚ
  zoom : Int
  container : Container
  deriving DecidableEq, Repr

/-- The state in which the call for frame `f` starts. -/
def atFrame (s : State) (f : Frame) : State :=
  { s with cx := f.cx, cy := f.cy, zoom := f.zoom }

/-- One `_render` call for frame `f`. -/
def renderFrame (s : State) (f : Frame) : State :=
  _render (atFrame s f) f.container

/-- A sequence of `_render` calls, one per frame. -/
def renderSeq (s : State) (fs : List Frame) : State :=
  fs.foldl renderFrame s

/-! ## The visible set in the words of the specification -/

/-- Follows the spec's words: `worldPixelSize(zoom) = TILE_SIZE * 2^zoom`. -/
def specWorldPixelSize (zoom : Int) : ℚ := (TILE_SIZE : ℚ) * 2 ^ zoom.toNat

/-- Follows the spec's words: the left edge of the viewport in world pixels,
`centre * worldPixelSize(z) - cw / 2`. -/
def specTopLeftX (s : State) (c : Container) : ℚ :=
  s.cx * specWorldPixelSize s.zoom - (c.clientWidth : ℚ) / 2

/-- Follows the spec's words: the top edge of the viewport in world pixels,
`centre * worldPixelSize(z) - ch / 2`. -/
def specTopLeftY (s : State) (c : Container) : ℚ :=
  s.cy * specWorldPixelSize s.zoom - (c.clientHeight : ℚ) / 2

/-- Follows the spec's words: the `TILE_SIZE`-square region
`[tx*256, (tx+1)*256) x [ty*256, (ty+1)*256)` of the tile `k` has a point in
common with the viewport rectangle
`[topLeftX, topLeftX + cw] x [topLeftY, topLeftY + ch]`. -/
def TileMeetsViewport (s : State) (c : Container) (k : TileKey) : Prop :=
  ∃ x y : ℚ,
    ((k.tx : ℚ) * 256 ≤ x ∧ x < ((k.tx : ℚ) + 1) * 256)
    ∧ ((k.ty : ℚ) * 256 ≤ y ∧ y < ((k.ty : ℚ) + 1) * 256)
    ∧ (specTopLeftX s c ≤ x ∧ x ≤ specTopLeftX s c + (c.clientWidth : ℚ))
    ∧ (specTopLeftY s c ≤ y ∧ y ≤ specTopLeftY s c + (c.clientHeight : ℚ))

/-- Follows the spec's words: `k` is a tile of the `2^z x 2^z` grid at the
current zoom whose region meets the viewport rectangle. -/
def SpecVisible (s : State) (c : Container) (k : TileKey) : Prop :=
  k.z = s.zoom
  ∧ (0 ≤ k.tx ∧ k.tx ≤ 2 ^ s.zoom.toNat - 1)
  ∧ (0 ≤ k.ty ∧ k.ty ≤ 2 ^ s.zoom.toNat - 1)
  ∧ TileMeetsViewport s c k

/-! ## Concrete inputs used in the examples below -/

/-- The fields that `mounted` initialises (lines 8-24), before its first
`_render`, for a resolution scale `dpr`. -/
def initState (dpr : Nat) : State :=
  { cx := 1 / 2, cy := 1 / 2, zoom := 2, tiles := [], dragging := false, lastX := 0, lastY := 0,
    pinchStartDist := none, pinchStartZoom := 0, scrollAccum := 0, dpr := dpr, created := 0 }

/-- A 512 x 512 container placed at the origin of the client area. -/
def viewport512 : Container :=
  { clientWidth := 512, clientHeight := 512, rectLeft := 0, rectTop := 0 }

/-- A wheel event with the given `deltaY` at client position `(x, y)`. -/
def wheelAt (deltaY x y : ℚ) : WheelEvent :=
  { deltaY := deltaY, clientX := x, clientY := y }

/-- A mouse event whose pointer position is the last recorded position moved
by `(dx, dy)` pixels: `_handleMouseMove` computes exactly this `(dx, dy)` from
it (lines 157-158). -/
def mouseMoveBy (s : State) (dx dy : ℚ) : MouseEvent :=
  { button := 0, clientX := s.lastX + dx, clientY := s.lastY + dy }

/-- A one-touch event whose touch position is the last recorded position
moved by `(dx, dy)` pixels (lines 231-232). -/
def touchMoveBy (s : State) (dx dy : ℚ) : TouchEvent :=
  { touches := [{ clientX := s.lastX + dx, clientY := s.lastY + dy }] }

/-- The initial state moved to zoom 31. -/
def zoom31State : State := { initState 1 with zoom := 31 }

/-- The initial state with a drag in progress. -/
def dragState : State := { initState 1 with dragging := true }

/-! ## Mount and teardown (lines 7-58) -/

/-- The two event targets that `mounted` registers listeners on. -/
inductive Target where
  | container
  | window
  deriving DecidableEq, Repr

/-- The event types that `mounted` registers listeners for. -/
inductive EventType where
  | mousedown
  | wheel
  | touchstart
  | contextmenu
  | mousemove
  | mouseup
  | touchmove
  | touchend
  deriving DecidableEq, Repr

/-- The function objects that `mounted` passes to `addEventListener`: the
four bound handlers kept in fields of `this` (lines 27-30) and the four arrow
functions written in place (lines 34-36 and 47), which no field refers to. -/
inductive Callback where
  | _onMouseMove
  | _onMouseUp
  | _onTouchMove
  | _onTouchEnd
  | arrowMouseDown
  | arrowWheel
  | arrowTouchStart
  | arrowContextMenu
  deriving DecidableEq, Repr

/-- One registered event listener. -/
structure Listener where
  target : Target
  type : EventType
  callback : Callback
  deriving DecidableEq, Repr

/-- The hook together with what it has registered in the page: the event
listeners and whether its `ResizeObserver` observes the container. -/
structure Hook where
  state : State
  listeners : List Listener
  observing : Bool
  deriving DecidableEq, Repr

/-- `addEventListener`: a listener that is already registered is not
registered twice. -/
def addEventListener (ls : List Listener) (l : Listener) : List Listener :=
  if l ∈ ls then ls else ls ++ [l]

/-- `removeEventListener`: removes the listener with this target, type and
function object, if registered. -/
def removeEventListener (ls : List Listener) (l : Listener) : List Listener :=
  ls.filter (fun l' => decide (l' ≠ l))

/-- Line 24: `Math.min(3, Math.max(1, Math.floor(window.devicePixelRatio || 1)))`. -/
def dprOf (devicePixelRatio : ℚ) : Nat :=
  (min 3 (max 1 ⌊if devicePixelRatio = 0 then (1 : ℚ) else devicePixelRatio⌋)).toNat

/-- `mounted` (lines 7-50). -/
def mounted (devicePixelRatio : ℚ) (c : Container) : Hook :=
  let s := initState (dprOf devicePixelRatio)
  let ls : List Listener := []
  let ls := addEventListener ls ⟨.container, .mousedown, .arrowMouseDown⟩
  let ls := addEventListener ls ⟨.container, .wheel, .arrowWheel⟩
  let ls := addEventListener ls ⟨.container, .touchstart, .arrowTouchStart⟩
  let ls := addEventListener ls ⟨.window, .mousemove, ._onMouseMove⟩
  let ls := addEventListener ls ⟨.window, .mouseup, ._onMouseUp⟩
  let ls := addEventListener ls ⟨.window, .touchmove, ._onTouchMove⟩
  let ls := addEventListener ls ⟨.window, .touchend, ._onTouchEnd⟩
  let ls := addEventListener ls ⟨.container, .contextmenu, .arrowContextMenu⟩
  { state := _render s c, listeners := ls, observing := true }

/-- `destroyed` (lines 52-58). -/
def destroyed (h : Hook) : Hook :=
  let ls := removeEventListener h.listeners ⟨.window, .mousemove, ._onMouseMove⟩
  let ls := removeEventListener ls ⟨.window, .mouseup, ._onMouseUp⟩
  let ls := removeEventListener ls ⟨.window, .touchmove, ._onTouchMove⟩
  let ls := removeEventListener ls ⟨.window, .touchend, ._onTouchEnd⟩
  { h with listeners := ls, observing := false }

/-! ## Event dispatch -/

/-- The events that the registered listeners and the resize observer react
to, each with the container as it is when the event arrives. -/
inductive Event where
  | mousedown (e : MouseEvent)
  | mousemove (c : Container) (e : MouseEvent)
  | mouseup
  | wheel (c : Container) (e : WheelEvent)
  | touchstart (e : TouchEvent)
  | touchmove (c : Container) (e : TouchEvent)
  | touchend
  | contextmenu
  | resize (c : Container)

/-- The handler that the listeners registered by `mounted` run for an event
(lines 34-47): the context-menu listener only prevents the default action,
the resize observer calls `_render`. -/
def dispatch (s : State) (ev : Event) : State :=
  match ev with
  | .mousedown e => _handleMouseDown s e
  | .mousemove c e => _handleMouseMove s c e
  | .mouseup => _handleMouseUp s
  | .wheel c e => _handleWheel s c e
  | .touchstart e => _handleTouchStart s e
  | .touchmove c e => _handleTouchMove s c e
  | .touchend => _handleTouchEnd s
  | .contextmenu => s
  | .resize c => _render s c

/-- The state after a sequence of events. -/
def run (s : State) (evs : List Event) : State :=
  evs.foldl dispatch s

/-! ## Further concrete inputs -/

/-- A pinch in progress that started at zoom 5 with the touches 5 pixels
apart (squared distance 25). -/
def pinchState : State :=
  { initState 1 with zoom := 5, pinchStartZoom := 5, pinchStartDist := some 25 }

/-- A container without area. -/
def viewport0 : Container :=
  { clientWidth := 0, clientHeight := 0, rectLeft := 0, rectTop := 0 }

/-! ## Lemmas on `<<` -/

theorem toNat_emod_32_lt (z : Int) : (z % 32).toNat < 32 := by
  have h1 : 0 ≤ z % 32 := Int.emod_nonneg z (by norm_num)
  have h2 : z % 32 < 32 := Int.emod_lt_of_pos z (by norm_num)
  omega

theorem shl_one_cases (z : Int) :
    shl 1 z = -2147483648 ∨ (0 < shl 1 z ∧ shl 1 z = 2 ^ (z % 32).toNat) := by
  have h := toNat_emod_32_lt z
  unfold shl
  generalize (z % 32).toNat = k at h
  interval_cases k <;> simp [toInt32]

theorem shl_one_ne_zero (z : Int) : shl 1 z ≠ 0 := by
  rcases shl_one_cases z with h | ⟨h, _⟩ <;> omega

theorem ws_ne_zero (z : Int) : (ws z : ℚ) ≠ 0 := by
  have h := shl_one_ne_zero z
  unfold ws TILE_SIZE
  exact_mod_cast mul_ne_zero (by norm_num) h

theorem shl_one_of_le_30 (z : Int) (h0 : 0 ≤ z) (h1 : z ≤ 30) : shl 1 z = 2 ^ z.toNat := by
  have : z % 32 = z := Int.emod_eq_of_lt h0 (by omega)
  unfold shl
  rw [this]
  have hk : z.toNat ≤ 30 := by omega
  generalize z.toNat = k at hk
  interval_cases k <;> simp [toInt32]

/-! ## `_render` leaves the camera and the gesture state alone -/

@[simp]
theorem render_cx (s : State) (c : Container) : (_render s c).cx = s.cx := rfl
@[simp]
theorem render_cy (s : State) (c : Container) : (_render s c).cy = s.cy := rfl
@[simp]
theorem render_zoom (s : State) (c : Container) : (_render s c).zoom = s.zoom := rfl
@[simp]
theorem render_scrollAccum (s : State) (c : Container) :
    (_render s c).scrollAccum = s.scrollAccum := rfl
@[simp]
theorem render_lastX (s : State) (c : Container) : (_render s c).lastX = s.lastX := rfl
@[simp]
theorem render_lastY (s : State) (c : Container) : (_render s c).lastY = s.lastY := rfl
@[simp]
theorem render_dragging (s : State) (c : Container) :
    (_render s c).dragging = s.dragging := rfl

/-! ## The three outcomes of `_handleWheel` -/

theorem handleWheel_below (s : State) (c : Container) (e : WheelEvent)
    (h : |wheelAccum s e| < SCROLL_THRESHOLD) :
    _handleWheel s c e = { s with scrollAccum := wheelAccum s e } := by
  simp [_handleWheel, h]

theorem handleWheel_same (s : State) (c : Container) (e : WheelEvent)
    (h : SCROLL_THRESHOLD ≤ |wheelAccum s e|)
    (hz : clampZoom (s.zoom + wheelZoomDelta (wheelAccum s e)) = s.zoom) :
    _handleWheel s c e = { s with scrollAccum := 0 } := by
  simp [_handleWheel, not_lt.mpr h, hz]

theorem handleWheel_step (s : State) (c : Container) (e : WheelEvent)
    (h : SCROLL_THRESHOLD ≤ |wheelAccum s e|)
    (hz : clampZoom (s.zoom + wheelZoomDelta (wheelAccum s e)) ≠ s.zoom) :
    _handleWheel s c e =
      _render
        { s with
          scrollAccum := 0
          cx := mouseWorldX s c (e.clientX - c.rectLeft)
                + ((c.clientWidth : ℚ) / 2 - (e.clientX - c.rectLeft))
                  / (ws (clampZoom (s.zoom + wheelZoomDelta (wheelAccum s e))) : ℚ)
          cy := mouseWorldY s c (e.clientY - c.rectTop)
                + ((c.clientHeight : ℚ) / 2 - (e.clientY - c.rectTop))
                  / (ws (clampZoom (s.zoom + wheelZoomDelta (wheelAccum s e))) : ℚ)
          zoom := clampZoom (s.zoom + wheelZoomDelta (wheelAccum s e)) } c := by
  simp [_handleWheel, not_lt.mpr h, hz, mouseWorldX, mouseWorldY]

/-! ## C1: wheel zoom is anchored at the cursor -/

/-- C1. When a wheel event crosses the threshold and the clamped new zoom
differs from the current one, the plane point under the cursor
(`mouseWorldX`, `mouseWorldY` at the container-local cursor position) is the
same before and after `_handleWheel`, in exact rational arithmetic; the world
pixel sizes that are divided by are non-zero. -/
theorem handleWheel_anchored (s : State) (c : Container) (e : WheelEvent)
    (hthr : SCROLL_THRESHOLD ≤ |wheelAccum s e|)
    (hz : clampZoom (s.zoom + wheelZoomDelta (wheelAccum s e)) ≠ s.zoom) :
    mouseWorldX (_handleWheel s c e) c (e.clientX - c.rectLeft)
        = mouseWorldX s c (e.clientX - c.rectLeft)
    ∧ mouseWorldY (_handleWheel s c e) c (e.clientY - c.rectTop)
        = mouseWorldY s c (e.clientY - c.rectTop)
    ∧ (_handleWheel s c e).zoom = clampZoom (s.zoom + wheelZoomDelta (wheelAccum s e))
    ∧ (ws s.zoom : ℚ) ≠ 0 ∧ (ws (_handleWheel s c e).zoom : ℚ) ≠ 0 := by
  rw [handleWheel_step s c e hthr hz]
  have h1 := ws_ne_zero s.zoom
  have h2 := ws_ne_zero (clampZoom (s.zoom + wheelZoomDelta (wheelAccum s e)))
  refine ⟨?_, ?_, rfl, h1, h2⟩
  · simp only [mouseWorldX, render_cx, render_zoom]
    field_simp
    ring
  · simp only [mouseWorldY, render_cy, render_zoom]
    field_simp
    ring

theorem handleWheel_anchored_witness :
    SCROLL_THRESHOLD ≤ |wheelAccum (initState 1) (wheelAt 300 10 20)|
    ∧ clampZoom ((initState 1).zoom + wheelZoomDelta (wheelAccum (initState 1) (wheelAt 300 10 20)))
        ≠ (initState 1).zoom
    ∧ mouseWorldX (_handleWheel (initState 1) viewport512 (wheelAt 300 10 20)) viewport512
          ((wheelAt 300 10 20).clientX - viewport512.rectLeft)
        = mouseWorldX (initState 1) viewport512 ((wheelAt 300 10 20).clientX - viewport512.rectLeft)
    ∧ mouseWorldY (_handleWheel (initState 1) viewport512 (wheelAt 300 10 20)) viewport512
          ((wheelAt 300 10 20).clientY - viewport512.rectTop)
        = mouseWorldY (initState 1) viewport512 ((wheelAt 300 10 20).clientY - viewport512.rectTop)
    ∧ (_handleWheel (initState 1) viewport512 (wheelAt 300 10 20)).zoom
        = clampZoom ((initState 1).zoom
            + wheelZoomDelta (wheelAccum (initState 1) (wheelAt 300 10 20)))
    ∧ (ws (initState 1).zoom : ℚ) ≠ 0
    ∧ (ws (_handleWheel (initState 1) viewport512 (wheelAt 300 10 20)).zoom : ℚ) ≠ 0 :=
  have h1 : SCROLL_THRESHOLD ≤ |wheelAccum (initState 1) (wheelAt 300 10 20)| := by
    norm_num [wheelAccum, initState, wheelAt, SCROLL_THRESHOLD]
  have h2 : clampZoom ((initState 1).zoom
      + wheelZoomDelta (wheelAccum (initState 1) (wheelAt 300 10 20))) ≠ (initState 1).zoom := by
    norm_num [wheelAccum, initState, wheelAt, wheelZoomDelta, clampZoom, MIN_ZOOM, MAX_ZOOM]
  ⟨h1, h2, handleWheel_anchored (initState 1) viewport512 (wheelAt 300 10 20) h1 h2⟩

/-! ## C2: the world pixel size at zoom 31 and above -/

/-- The computed world pixel size and tile count are `256 * 2^z` and `2^z`
for every zoom from 0 to 30. -/
theorem ws_nt_of_le_30 (z : Int) (h0 : 0 ≤ z) (h1 : z ≤ 30) :
    ws z = 256 * 2 ^ z.toNat ∧ nt z = 2 ^ z.toNat := by
  simp [ws, nt, TILE_SIZE, shl_one_of_le_30 z h0 h1]

/-- C2 (failing inputs). At zoom 31, inside `[MIN_ZOOM, MAX_ZOOM]`, the code
computes the tile count `1 << 31 = -2^31` and the world pixel size
`256 * -2^31`, not `2^31` and `256 * 2^31`; at zoom 32 it computes `1` and
`256`, not `2^32` and `256 * 2^32`. -/
theorem ws_nt_at_zoom_31 :
    MIN_ZOOM ≤ 31 ∧ (31 : Int) ≤ MAX_ZOOM
    ∧ nt 31 = -2147483648 ∧ ws 31 = -549755813888
    ∧ nt 31 ≠ 2 ^ 31 ∧ ws 31 ≠ TILE_SIZE * 2 ^ 31
    ∧ nt 32 = 1 ∧ ws 32 = 256
    ∧ nt 32 ≠ 2 ^ 32 ∧ ws 32 ≠ TILE_SIZE * 2 ^ 32 := by
  decide

/-! ## C8: a zoom request at the end of the range -/

/-- C8. At `zoom = MIN_ZOOM` a threshold-crossing zoom-out wheel event, and at
`zoom = MAX_ZOOM` a threshold-crossing zoom-in wheel event, only resets the
accumulator: `cx`, `cy`, `zoom` are unchanged and `_render` does not run (the
tile map and the element counter are unchanged). -/
theorem handleWheel_noop_at_bounds (s : State) (c : Container) (e : WheelEvent)
    (hthr : SCROLL_THRESHOLD ≤ |wheelAccum s e|)
    (hb : (s.zoom = MIN_ZOOM ∧ 0 < wheelAccum s e) ∨ (s.zoom = MAX_ZOOM ∧ wheelAccum s e < 0)) :
    _handleWheel s c e = { s with scrollAccum := 0 }
    ∧ (_handleWheel s c e).cx = s.cx ∧ (_handleWheel s c e).cy = s.cy
    ∧ (_handleWheel s c e).zoom = s.zoom ∧ (_handleWheel s c e).tiles = s.tiles
    ∧ (_handleWheel s c e).created = s.created := by
  have hz : clampZoom (s.zoom + wheelZoomDelta (wheelAccum s e)) = s.zoom := by
    rcases hb with ⟨h0, ha⟩ | ⟨h0, ha⟩
    · simp [wheelZoomDelta, ha, h0, clampZoom, MIN_ZOOM, MAX_ZOOM]
    · simp [wheelZoomDelta, not_lt.mpr ha.le, h0, clampZoom, MIN_ZOOM, MAX_ZOOM]
  rw [handleWheel_same s c e hthr hz]
  simp

theorem handleWheel_noop_at_bounds_witness :
    SCROLL_THRESHOLD ≤ |wheelAccum { initState 1 with zoom := 45 } (wheelAt (-300) 10 20)|
    ∧ (({ initState 1 with zoom := 45 } : State).zoom = MAX_ZOOM
        ∧ wheelAccum { initState 1 with zoom := 45 } (wheelAt (-300) 10 20) < 0)
    ∧ _handleWheel { initState 1 with zoom := 45 } viewport512 (wheelAt (-300) 10 20)
        = { ({ initState 1 with zoom := 45 } : State) with scrollAccum := 0 } :=
  have h1 : SCROLL_THRESHOLD
      ≤ |wheelAccum { initState 1 with zoom := 45 } (wheelAt (-300) 10 20)| := by
    norm_num [wheelAccum, initState, wheelAt, SCROLL_THRESHOLD]
  have h2 : ({ initState 1 with zoom := 45 } : State).zoom = MAX_ZOOM
      ∧ wheelAccum { initState 1 with zoom := 45 } (wheelAt (-300) 10 20) < 0 := by
    norm_num [wheelAccum, initState, wheelAt, MAX_ZOOM]
  ⟨h1, h2, (handleWheel_noop_at_bounds _ viewport512 _ h1 (Or.inr h2)).1⟩

/-! ## C9: panning there and back -/

theorem handleMouseMove_dragging (s : State) (c : Container) (e : MouseEvent)
    (h : s.dragging = true) :
    _handleMouseMove s c e =
      _render
        { s with
          lastX := e.clientX
          lastY := e.clientY
          cx := s.cx - (e.clientX - s.lastX) / (ws s.zoom : ℚ)
          cy := s.cy - (e.clientY - s.lastY) / (ws s.zoom : ℚ) } c := by
  simp [_handleMouseMove, h]

theorem handleTouchMove_dragging (s : State) (c : Container) (t : Touch)
    (h : s.dragging = true) :
    _handleTouchMove s c { touches := [t] } =
      _render
        { s with
          lastX := t.clientX
          lastY := t.clientY
          cx := s.cx - (t.clientX - s.lastX) / (ws s.zoom : ℚ)
          cy := s.cy - (t.clientY - s.lastY) / (ws s.zoom : ℚ) } c := by
  simp [_handleTouchMove, h]

/-- C9. During a drag, a pointer move by `(dx, dy)` shifts the centre by
`(-dx / ws, -dy / ws)`, and a following move by `(-dx, -dy)` restores `cx` and
`cy` exactly; `zoom` never changes.  This holds for `_handleMouseMove` and for
the one-touch branch of `_handleTouchMove`. -/
theorem pan_there_and_back (s : State) (c : Container) (dx dy : ℚ)
    (hdrag : s.dragging = true) :
    ((_handleMouseMove s c (mouseMoveBy s dx dy)).cx = s.cx - dx / (ws s.zoom : ℚ)
      ∧ (_handleMouseMove s c (mouseMoveBy s dx dy)).cy = s.cy - dy / (ws s.zoom : ℚ)
      ∧ (_handleMouseMove s c (mouseMoveBy s dx dy)).zoom = s.zoom
      ∧ (_handleMouseMove (_handleMouseMove s c (mouseMoveBy s dx dy)) c
          (mouseMoveBy (_handleMouseMove s c (mouseMoveBy s dx dy)) (-dx) (-dy))).cx = s.cx
      ∧ (_handleMouseMove (_handleMouseMove s c (mouseMoveBy s dx dy)) c
          (mouseMoveBy (_handleMouseMove s c (mouseMoveBy s dx dy)) (-dx) (-dy))).cy = s.cy
      ∧ (_handleMouseMove (_handleMouseMove s c (mouseMoveBy s dx dy)) c
          (mouseMoveBy (_handleMouseMove s c (mouseMoveBy s dx dy)) (-dx) (-dy))).zoom = s.zoom)
    ∧ ((_handleTouchMove s c (touchMoveBy s dx dy)).cx = s.cx - dx / (ws s.zoom : ℚ)
      ∧ (_handleTouchMove s c (touchMoveBy s dx dy)).cy = s.cy - dy / (ws s.zoom : ℚ)
      ∧ (_handleTouchMove s c (touchMoveBy s dx dy)).zoom = s.zoom
      ∧ (_handleTouchMove (_handleTouchMove s c (touchMoveBy s dx dy)) c
          (touchMoveBy (_handleTouchMove s c (touchMoveBy s dx dy)) (-dx) (-dy))).cx = s.cx
      ∧ (_handleTouchMove (_handleTouchMove s c (touchMoveBy s dx dy)) c
          (touchMoveBy (_handleTouchMove s c (touchMoveBy s dx dy)) (-dx) (-dy))).cy = s.cy
      ∧ (_handleTouchMove (_handleTouchMove s c (touchMoveBy s dx dy)) c
          (touchMoveBy (_handleTouchMove s c (touchMoveBy s dx dy)) (-dx) (-dy))).zoom = s.zoom) := by
  constructor
  · rw [handleMouseMove_dragging s c _ hdrag]
    rw [handleMouseMove_dragging _ c _ (by simpa using hdrag)]
    simp [mouseMoveBy]
    constructor <;> ring
  · simp only [touchMoveBy]
    rw [handleTouchMove_dragging s c _ hdrag]
    rw [handleTouchMove_dragging _ c _ (by simpa using hdrag)]
    simp
    constructor <;> ring

theorem pan_there_and_back_witness :
    dragState.dragging = true
    ∧ (((_handleMouseMove dragState viewport512 (mouseMoveBy dragState 64 (-32))).cx = dragState.cx - 64 / (ws dragState.zoom : ℚ)
      ∧ (_handleMouseMove dragState viewport512 (mouseMoveBy dragState 64 (-32))).cy = dragState.cy - (-32) / (ws dragState.zoom : ℚ)
      ∧ (_handleMouseMove dragState viewport512 (mouseMoveBy dragState 64 (-32))).zoom = dragState.zoom
      ∧ (_handleMouseMove (_handleMouseMove dragState viewport512 (mouseMoveBy dragState 64 (-32))) viewport512
          (mouseMoveBy (_handleMouseMove dragState viewport512 (mouseMoveBy dragState 64 (-32))) (-64) (- -32))).cx = dragState.cx
      ∧ (_handleMouseMove (_handleMouseMove dragState viewport512 (mouseMoveBy dragState 64 (-32))) viewport512
          (mouseMoveBy (_handleMouseMove dragState viewport512 (mouseMoveBy dragState 64 (-32))) (-64) (- -32))).cy = dragState.cy
      ∧ (_handleMouseMove (_handleMouseMove dragState viewport512 (mouseMoveBy dragState 64 (-32))) viewport512
          (mouseMoveBy (_handleMouseMove dragState viewport512 (mouseMoveBy dragState 64 (-32))) (-64) (- -32))).zoom = dragState.zoom)
    ∧ ((_handleTouchMove dragState viewport512 (touchMoveBy dragState 64 (-32))).cx = dragState.cx - 64 / (ws dragState.zoom : ℚ)
      ∧ (_handleTouchMove dragState viewport512 (touchMoveBy dragState 64 (-32))).cy = dragState.cy - (-32) / (ws dragState.zoom : ℚ)
      ∧ (_handleTouchMove dragState viewport512 (touchMoveBy dragState 64 (-32))).zoom = dragState.zoom
      ∧ (_handleTouchMove (_handleTouchMove dragState viewport512 (touchMoveBy dragState 64 (-32))) viewport512
          (touchMoveBy (_handleTouchMove dragState viewport512 (touchMoveBy dragState 64 (-32))) (-64) (- -32))).cx = dragState.cx
      ∧ (_handleTouchMove (_handleTouchMove dragState viewport512 (touchMoveBy dragState 64 (-32))) viewport512
          (touchMoveBy (_handleTouchMove dragState viewport512 (touchMoveBy dragState 64 (-32))) (-64) (- -32))).cy = dragState.cy
      ∧ (_handleTouchMove (_handleTouchMove dragState viewport512 (touchMoveBy dragState 64 (-32))) viewport512
          (touchMoveBy (_handleTouchMove dragState viewport512 (touchMoveBy dragState 64 (-32))) (-64) (- -32))).zoom = dragState.zoom)) :=
  ⟨rfl, pan_there_and_back dragState viewport512 64 (-32) rfl⟩

/-! ## C10: the wheel threshold -/

theorem handleWheel_at_or_above (s : State) (c : Container) (e : WheelEvent)
    (h : SCROLL_THRESHOLD ≤ |wheelAccum s e|) :
    (_handleWheel s c e).scrollAccum = 0
    ∧ (_handleWheel s c e).zoom = clampZoom (s.zoom + wheelZoomDelta (wheelAccum s e)) := by
  by_cases hz : clampZoom (s.zoom + wheelZoomDelta (wheelAccum s e)) = s.zoom
  · rw [handleWheel_same s c e h hz]
    exact ⟨rfl, hz.symm⟩
  · rw [handleWheel_step s c e h hz]
    exact ⟨rfl, rfl⟩

/-- C10. Let `a = wheelAccum s e` be the accumulator after the
direction-change reset plus `deltaY`.  If `|a| < SCROLL_THRESHOLD` the state
is unchanged except that the accumulator becomes `a`.  If
`|a| ≥ SCROLL_THRESHOLD` the accumulator becomes `0` and the zoom becomes
`clampZoom (zoom - 1)` when `a > 0` and `clampZoom (zoom + 1)` when `a < 0`
(one level, whatever the magnitude).  From accumulator `0` and zoom `2`, three
events with `deltaY = 100` leave zoom `2` with accumulators `100` and `200`
and then give zoom `1` with accumulator `0`. -/
theorem handleWheel_threshold (s : State) (c : Container) (e : WheelEvent) :
    SCROLL_THRESHOLD = 300
    ∧ (|wheelAccum s e| < SCROLL_THRESHOLD →
        _handleWheel s c e = { s with scrollAccum := wheelAccum s e })
    ∧ (SCROLL_THRESHOLD ≤ |wheelAccum s e| →
        (_handleWheel s c e).scrollAccum = 0
        ∧ (0 < wheelAccum s e ∨ wheelAccum s e < 0)
        ∧ (0 < wheelAccum s e → (_handleWheel s c e).zoom = clampZoom (s.zoom - 1))
        ∧ (wheelAccum s e < 0 → (_handleWheel s c e).zoom = clampZoom (s.zoom + 1)))
    ∧ (s.scrollAccum = 0 → s.zoom = 2 → ∀ x1 y1 x2 y2 x3 y3 : ℚ,
        (_handleWheel s c (wheelAt 100 x1 y1)).zoom = 2
        ∧ (_handleWheel s c (wheelAt 100 x1 y1)).scrollAccum = 100
        ∧ (_handleWheel (_handleWheel s c (wheelAt 100 x1 y1)) c (wheelAt 100 x2 y2)).zoom = 2
        ∧ (_handleWheel (_handleWheel s c (wheelAt 100 x1 y1)) c
            (wheelAt 100 x2 y2)).scrollAccum = 200
        ∧ (_handleWheel (_handleWheel (_handleWheel s c (wheelAt 100 x1 y1)) c
            (wheelAt 100 x2 y2)) c (wheelAt 100 x3 y3)).zoom = 1
        ∧ (_handleWheel (_handleWheel (_handleWheel s c (wheelAt 100 x1 y1)) c
            (wheelAt 100 x2 y2)) c (wheelAt 100 x3 y3)).scrollAccum = 0) := by
  refine ⟨rfl, handleWheel_below s c e, ?_, ?_⟩
  · intro h
    obtain ⟨h1, h2⟩ := handleWheel_at_or_above s c e h
    have hpos : (0 : ℚ) < |wheelAccum s e| := lt_of_lt_of_le (by norm_num [SCROLL_THRESHOLD]) h
    have hne : wheelAccum s e ≠ 0 := abs_pos.mp hpos
    refine ⟨h1, (lt_or_gt_of_ne hne).symm, ?_, ?_⟩
    · intro ha
      rw [h2]
      simp [wheelZoomDelta, ha, sub_eq_add_neg]
    · intro ha
      rw [h2]
      simp [wheelZoomDelta, not_lt.mpr ha.le]
  · intro hacc hzoom x1 y1 x2 y2 x3 y3
    have e1 : _handleWheel s c (wheelAt 100 x1 y1) = { s with scrollAccum := 100 } := by
      have ha : wheelAccum s (wheelAt 100 x1 y1) = 100 := by
        simp [wheelAccum, wheelAt, hacc]
      rw [handleWheel_below s c _ (by rw [ha]; norm_num [SCROLL_THRESHOLD]), ha]
    have e2 : _handleWheel { s with scrollAccum := 100 } c (wheelAt 100 x2 y2)
        = { s with scrollAccum := 200 } := by
      have ha : wheelAccum { s with scrollAccum := 100 } (wheelAt 100 x2 y2) = 200 := by
        norm_num [wheelAccum, wheelAt]
      rw [handleWheel_below _ c _ (by rw [ha]; norm_num [SCROLL_THRESHOLD]), ha]
    have ha3 : wheelAccum { s with scrollAccum := 200 } (wheelAt 100 x3 y3) = 300 := by
      norm_num [wheelAccum, wheelAt]
    have e3 := handleWheel_at_or_above { s with scrollAccum := 200 } c (wheelAt 100 x3 y3)
      (by rw [ha3]; norm_num [SCROLL_THRESHOLD])
    rw [e1, e2]
    refine ⟨hzoom, rfl, hzoom, rfl, ?_, e3.1⟩
    rw [e3.2, ha3]
    simp [wheelZoomDelta, hzoom, clampZoom, MIN_ZOOM, MAX_ZOOM]

theorem handleWheel_threshold_witness :
    (_handleWheel (_handleWheel (_handleWheel (initState 1) viewport512 (wheelAt 100 0 0))
        viewport512 (wheelAt 100 0 0)) viewport512 (wheelAt 100 0 0)).zoom = 1
    ∧ (_handleWheel (_handleWheel (_handleWheel (initState 1) viewport512 (wheelAt 100 0 0))
        viewport512 (wheelAt 100 0 0)) viewport512 (wheelAt 100 0 0)).scrollAccum = 0 :=
  have h := (handleWheel_threshold (initState 1) viewport512 (wheelAt 100 0 0)).2.2.2
    rfl rfl 0 0 0 0 0 0
  ⟨h.2.2.2.2.1, h.2.2.2.2.2⟩

/-! ## Lemmas on the `Map` and `Set` operations -/

theorem mem_loopRange (lo hi i : Int) : i ∈ loopRange lo hi ↔ lo ≤ i ∧ i ≤ hi := by
  unfold loopRange
  rw [List.mem_map]
  constructor
  · rintro ⟨n, hn, rfl⟩
    rw [List.mem_range] at hn
    omega
  · rintro ⟨h1, h2⟩
    refine ⟨(i - lo).toNat, ?_, ?_⟩
    · rw [List.mem_range]
      omega
    · omega

theorem mem_setAdd (n : List TileKey) (k x : TileKey) : x ∈ setAdd n k ↔ x ∈ n ∨ x = k := by
  unfold setAdd
  split_ifs with h
  · constructor
    · exact Or.inl
    · rintro (h1 | rfl)
      · exact h1
      · exact h
  · simp

theorem mapGet_mapSet_self (m : List (TileKey × Img)) (k : TileKey) (v : Img) :
    mapGet (mapSet m k v) k = some v := by
  induction m with
  | nil => simp [mapSet, mapGet]
  | cons hd tl ih =>
    obtain ⟨k', v'⟩ := hd
    by_cases h : k' = k
    · simp [mapSet, mapGet, h]
    · simp [mapSet, mapGet, h, ih]

theorem mapGet_mapSet_ne (m : List (TileKey × Img)) (k k' : TileKey) (v : Img) (h : k' ≠ k) :
    mapGet (mapSet m k v) k' = mapGet m k' := by
  induction m with
  | nil => simp [mapSet, mapGet, Ne.symm h]
  | cons hd tl ih =>
    obtain ⟨k0, v0⟩ := hd
    by_cases h0 : k0 = k
    · subst h0
      simp [mapSet, mapGet, Ne.symm h]
    · by_cases h1 : k0 = k'
      · subst h1
        simp [mapSet, mapGet, h0]
      · simp [mapSet, mapGet, h0, h1, ih]

theorem mapGet_filter (m : List (TileKey × Img)) (p : TileKey → Bool) (k : TileKey) :
    mapGet (m.filter (fun kv => p kv.1)) k = if p k = true then mapGet m k else none := by
  induction m with
  | nil => simp [mapGet]
  | cons hd tl ih =>
    obtain ⟨k0, v0⟩ := hd
    by_cases h0 : k0 = k
    · subst h0
      by_cases hp : p k0 = true
      · simp [List.filter, hp, mapGet]
      · simp only [Bool.not_eq_true] at hp
        simp [List.filter, hp, mapGet, ih]
    · by_cases hp : p k0 = true
      · simp [List.filter, hp, mapGet, h0, ih]
      · simp only [Bool.not_eq_true] at hp
        simp [List.filter, hp, mapGet, h0, ih]

theorem mem_keys_iff (m : List (TileKey × Img)) (k : TileKey) :
    k ∈ m.map Prod.fst ↔ ∃ img, mapGet m k = some img := by
  induction m with
  | nil => simp [mapGet]
  | cons hd tl ih =>
    obtain ⟨k0, v0⟩ := hd
    by_cases h0 : k0 = k
    · simp [mapGet, h0]
    · simp only [List.map_cons, List.mem_cons, mapGet, h0, if_false]
      rw [← ih]
      constructor
      · rintro (h | h)
        · exact absurd h.symm h0
        · exact h
      · exact Or.inr

/-! ## The `needed` set built by the loops of `_render` -/

theorem renderTile_some (s : State) (c : Container) (ty : Int) (acc : RenderAcc) (tx : Int)
    (img : Img) (h : mapGet acc.tiles ⟨s.zoom, tx, ty⟩ = some img) :
    renderTile s c ty acc tx =
      { needed := setAdd acc.needed ⟨s.zoom, tx, ty⟩
        tiles := mapSet acc.tiles ⟨s.zoom, tx, ty⟩
          { img with
            left := some (((tx * TILE_SIZE : Int) : ℚ) - topLeftX s c)
            top := some (((ty * TILE_SIZE : Int) : ℚ) - topLeftY s c) }
        created := acc.created } := by
  simp only [renderTile, h]

theorem renderTile_none (s : State) (c : Container) (ty : Int) (acc : RenderAcc) (tx : Int)
    (h : mapGet acc.tiles ⟨s.zoom, tx, ty⟩ = none) :
    renderTile s c ty acc tx =
      { needed := setAdd acc.needed ⟨s.zoom, tx, ty⟩
        tiles := mapSet
          (mapSet acc.tiles ⟨s.zoom, tx, ty⟩
            { id := acc.created, src := ⟨s.zoom, tx, ty, s.dpr⟩, left := none, top := none })
          ⟨s.zoom, tx, ty⟩
          { id := acc.created, src := ⟨s.zoom, tx, ty, s.dpr⟩
            left := some (((tx * TILE_SIZE : Int) : ℚ) - topLeftX s c)
            top := some (((ty * TILE_SIZE : Int) : ℚ) - topLeftY s c) }
        created := acc.created + 1 } := by
  simp only [renderTile, h]

theorem renderTile_needed (s : State) (c : Container) (ty : Int) (acc : RenderAcc) (tx : Int) :
    (renderTile s c ty acc tx).needed = setAdd acc.needed ⟨s.zoom, tx, ty⟩ := by
  cases h : mapGet acc.tiles ⟨s.zoom, tx, ty⟩ with
  | none => rw [renderTile_none s c ty acc tx h]
  | some img => rw [renderTile_some s c ty acc tx img h]

theorem renderRow_needed (s : State) (c : Container) (ty : Int) (l : List Int)
    (acc : RenderAcc) :
    (l.foldl (renderTile s c ty) acc).needed
      = l.foldl (fun n tx => setAdd n ⟨s.zoom, tx, ty⟩) acc.needed := by
  induction l generalizing acc with
  | nil => rfl
  | cons tx tl ih => simp only [List.foldl_cons, ih, renderTile_needed]

theorem renderRows_needed (s : State) (c : Container) (l : List Int) (acc : RenderAcc) :
    (l.foldl (renderRow s c) acc).needed
      = l.foldl (fun n ty =>
          (loopRange (tMinX s c) (tMaxX s c)).foldl (fun n tx => setAdd n ⟨s.zoom, tx, ty⟩) n)
          acc.needed := by
  induction l generalizing acc with
  | nil => rfl
  | cons ty tl ih => simp only [List.foldl_cons, ih, renderRow, renderRow_needed]

/-- The `needed` set only depends on the zoom and on the clamped index
ranges: it is filled row by row, each row from `tMinX` to `tMaxX`. -/
theorem needed_eq (s : State) (c : Container) :
    needed s c
      = (loopRange (tMinY s c) (tMaxY s c)).foldl (fun n ty =>
          (loopRange (tMinX s c) (tMaxX s c)).foldl (fun n tx => setAdd n ⟨s.zoom, tx, ty⟩) n)
          [] := by
  unfold needed renderLoop
  rw [renderRows_needed]

theorem mem_foldl_setAdd_row (z ty : Int) (l : List Int) (n : List TileKey) (k : TileKey) :
    k ∈ l.foldl (fun n tx => setAdd n ⟨z, tx, ty⟩) n
      ↔ k ∈ n ∨ (k.z = z ∧ k.ty = ty ∧ k.tx ∈ l) := by
  induction l generalizing n with
  | nil => simp
  | cons tx tl ih =>
    simp only [List.foldl_cons, ih, mem_setAdd, List.mem_cons]
    constructor
    · rintro ((h | h) | h)
      · exact Or.inl h
      · subst h
        exact Or.inr ⟨rfl, rfl, Or.inl rfl⟩
      · exact Or.inr ⟨h.1, h.2.1, Or.inr h.2.2⟩
    · rintro (h | ⟨h1, h2, h3 | h3⟩)
      · exact Or.inl (Or.inl h)
      · refine Or.inl (Or.inr ?_)
        cases k
        simp_all
      · exact Or.inr ⟨h1, h2, h3⟩

theorem mem_foldl_setAdd_rows (z : Int) (lx ly : List Int) (n : List TileKey) (k : TileKey) :
    k ∈ ly.foldl (fun n ty => lx.foldl (fun n tx => setAdd n ⟨z, tx, ty⟩) n) n
      ↔ k ∈ n ∨ (k.z = z ∧ k.tx ∈ lx ∧ k.ty ∈ ly) := by
  induction ly generalizing n with
  | nil => simp
  | cons ty tl ih =>
    simp only [List.foldl_cons, ih, mem_foldl_setAdd_row, List.mem_cons]
    constructor
    · rintro ((h | h) | h)
      · exact Or.inl h
      · exact Or.inr ⟨h.1, h.2.2, Or.inl h.2.1⟩
      · exact Or.inr ⟨h.1, h.2.1, Or.inr h.2.2⟩
    · rintro (h | ⟨h1, h2, h3 | h3⟩)
      · exact Or.inl (Or.inl h)
      · exact Or.inl (Or.inr ⟨h1, h3, h2⟩)
      · exact Or.inr ⟨h1, h2, h3⟩

/-- Membership in `needed`: the key carries the current zoom and its indices
lie in the clamped ranges. -/
theorem mem_needed (s : State) (c : Container) (k : TileKey) :
    k ∈ needed s c
      ↔ k.z = s.zoom ∧ (tMinX s c ≤ k.tx ∧ k.tx ≤ tMaxX s c)
          ∧ (tMinY s c ≤ k.ty ∧ k.ty ≤ tMaxY s c) := by
  rw [needed_eq, mem_foldl_setAdd_rows]
  simp [mem_loopRange]

/-! ## The tile map built by the loops of `_render` -/

theorem handleOrigin_mono {s : State} {b b' : Nat} {k : TileKey} {img : Img}
    (h : HandleOrigin s b k img) (hb : b ≤ b') : HandleOrigin s b' k img := by
  rcases h with h | ⟨h1, h2, h3, h4⟩
  · exact Or.inl h
  · exact Or.inr ⟨h1, h2, lt_of_lt_of_le h3 hb, h4⟩

theorem renderInv_init (s : State) (c : Container) :
    RenderInv s c { needed := [], tiles := s.tiles, created := s.created } :=
  ⟨le_refl _, fun _ _ => rfl, fun _ hk => absurd hk (List.not_mem_nil _)⟩

theorem renderInv_tile (s : State) (c : Container) (ty tx : Int) (acc : RenderAcc)
    (inv : RenderInv s c acc) : RenderInv s c (renderTile s c ty acc tx) := by
  obtain ⟨hc, hout, hin⟩ := inv
  cases h : mapGet acc.tiles ⟨s.zoom, tx, ty⟩ with
  | some img =>
    rw [renderTile_some s c ty acc tx img h]
    refine ⟨hc, ?_, ?_⟩
    · intro k hk
      rw [mem_setAdd, not_or] at hk
      dsimp only
      rw [mapGet_mapSet_ne _ _ _ _ hk.2]
      exact hout k hk.1
    · intro k hk
      dsimp only at hk ⊢
      by_cases hkey : k = ⟨s.zoom, tx, ty⟩
      · subst hkey
        rw [mapGet_mapSet_self]
        refine ⟨_, rfl, ⟨rfl, rfl⟩, ?_⟩
        by_cases hn : (⟨s.zoom, tx, ty⟩ : TileKey) ∈ acc.needed
        · obtain ⟨img', h1, _, h3⟩ := hin _ hn
          rw [h] at h1
          cases h1
          rcases h3 with ⟨i0, e1, e2, e3⟩ | ⟨e1, e2, e3, e4⟩
          · exact Or.inl ⟨i0, e1, e2, e3⟩
          · exact Or.inr ⟨e1, e2, e3, e4⟩
        · have := hout _ hn
          rw [h] at this
          exact Or.inl ⟨img, this.symm, rfl, rfl⟩
      · rw [mapGet_mapSet_ne _ _ _ _ hkey]
        have hk' : k ∈ acc.needed := by
          rcases (mem_setAdd _ _ _).mp hk with h1 | h1
          · exact h1
          · exact absurd h1 hkey
        exact hin k hk'
  | none =>
    rw [renderTile_none s c ty acc tx h]
    have hnot : (⟨s.zoom, tx, ty⟩ : TileKey) ∉ acc.needed := by
      intro hn
      obtain ⟨img', h1, _⟩ := hin _ hn
      rw [h] at h1
      cases h1
    refine ⟨Nat.le_succ_of_le hc, ?_, ?_⟩
    · intro k hk
      rw [mem_setAdd, not_or] at hk
      dsimp only
      rw [mapGet_mapSet_ne _ _ _ _ hk.2, mapGet_mapSet_ne _ _ _ _ hk.2]
      exact hout k hk.1
    · intro k hk
      dsimp only at hk ⊢
      by_cases hkey : k = ⟨s.zoom, tx, ty⟩
      · subst hkey
        rw [mapGet_mapSet_self]
        refine ⟨_, rfl, ⟨rfl, rfl⟩, Or.inr ⟨?_, hc, Nat.lt_succ_self _, rfl⟩⟩
        rw [← hout _ hnot]
        exact h
      · rw [mapGet_mapSet_ne _ _ _ _ hkey, mapGet_mapSet_ne _ _ _ _ hkey]
        have hk' : k ∈ acc.needed := by
          rcases (mem_setAdd _ _ _).mp hk with h1 | h1
          · exact h1
          · exact absurd h1 hkey
        obtain ⟨img', h1, h2, h3⟩ := hin k hk'
        exact ⟨img', h1, h2, handleOrigin_mono h3 (Nat.le_succ _)⟩

theorem renderInv_row (s : State) (c : Container) (ty : Int) (l : List Int) (acc : RenderAcc)
    (inv : RenderInv s c acc) : RenderInv s c (l.foldl (renderTile s c ty) acc) := by
  induction l generalizing acc with
  | nil => exact inv
  | cons tx tl ih => exact ih _ (renderInv_tile s c ty tx acc inv)

theorem renderInv_rows (s : State) (c : Container) (l : List Int) (acc : RenderAcc)
    (inv : RenderInv s c acc) : RenderInv s c (l.foldl (renderRow s c) acc) := by
  induction l generalizing acc with
  | nil => exact inv
  | cons ty tl ih => exact ih _ (renderInv_row s c ty _ acc inv)

theorem renderInv_loop (s : State) (c : Container) : RenderInv s c (renderLoop s c) :=
  renderInv_rows s c _ _ (renderInv_init s c)

/-- Lookup in the tile map after `_render`: the eviction loop keeps exactly
the entries of the loop result whose key is needed. -/
theorem mapGet_render (s : State) (c : Container) (k : TileKey) :
    mapGet (_render s c).tiles k
      = if k ∈ needed s c then mapGet (renderLoop s c).tiles k else none := by
  unfold _render needed
  dsimp only
  rw [mapGet_filter (renderLoop s c).tiles (setHas (renderLoop s c).needed) k]
  simp [setHas]

theorem mem_needed_iff_mapGet_render (s : State) (c : Container) (k : TileKey) :
    (∃ img, mapGet (_render s c).tiles k = some img) ↔ k ∈ needed s c := by
  rw [mapGet_render]
  by_cases hk : k ∈ needed s c
  · obtain ⟨img', h1, _⟩ := (renderInv_loop s c).2.2 k hk
    simp only [hk, if_true, iff_true]
    exact ⟨img', h1⟩
  · simp [hk]

/-! ## C6: after a pass the tile map holds exactly the needed keys -/

/-- C6. After one `_render` pass, for any prior tile map, camera and
container, the keys of the tile map are exactly the keys of the `needed` set
of that pass (every needed key has a handle, and no other key has one).
Hence after any non-empty sequence of `_render` calls the keys of the tile
map are exactly the `needed` set of the last call. -/
theorem render_keys_eq_needed (s : State) (c : Container) :
    (∀ k, k ∈ (_render s c).tiles.map Prod.fst ↔ k ∈ needed s c)
    ∧ (∀ k, (∃ img, mapGet (_render s c).tiles k = some img) ↔ k ∈ needed s c)
    ∧ (∀ (fs : List Frame) (f : Frame) (k : TileKey),
        k ∈ (renderSeq s (fs ++ [f])).tiles.map Prod.fst
          ↔ k ∈ needed (atFrame (renderSeq s fs) f) f.container) := by
  refine ⟨?_, mem_needed_iff_mapGet_render s c, ?_⟩
  · intro k
    rw [mem_keys_iff, mem_needed_iff_mapGet_render]
  · intro fs f k
    unfold renderSeq
    rw [List.foldl_append, List.foldl_cons, List.foldl_nil]
    unfold renderFrame
    rw [mem_keys_iff, mem_needed_iff_mapGet_render]

/-! ## C7: handles of keys that stay visible are reused -/

theorem renderCount_tile (s : State) (c : Container) (ty tx : Int) (acc : RenderAcc)
    (inv : RenderInv s c acc) (hcnt : acc.created = s.created + countAbsent s acc.needed) :
    (renderTile s c ty acc tx).created
      = s.created + countAbsent s (renderTile s c ty acc tx).needed := by
  obtain ⟨_, hout, hin⟩ := inv
  cases h : mapGet acc.tiles ⟨s.zoom, tx, ty⟩ with
  | some img =>
    rw [renderTile_some s c ty acc tx img h]
    dsimp only
    by_cases hn : (⟨s.zoom, tx, ty⟩ : TileKey) ∈ acc.needed
    · simp only [setAdd, hn, if_true]
      exact hcnt
    · have hs := hout _ hn
      rw [h] at hs
      simp only [setAdd, hn, if_false, countAbsent, List.filter_append, List.length_append]
      simp only [countAbsent] at hcnt
      simp [hcnt, ← hs]
  | none =>
    rw [renderTile_none s c ty acc tx h]
    dsimp only
    have hn : (⟨s.zoom, tx, ty⟩ : TileKey) ∉ acc.needed := by
      intro hn
      obtain ⟨img', h1, _⟩ := hin _ hn
      rw [h] at h1
      cases h1
    have hs := hout _ hn
    rw [h] at hs
    simp only [setAdd, hn, if_false, countAbsent, List.filter_append, List.length_append]
    simp only [countAbsent] at hcnt
    simp [hcnt, ← hs, Nat.add_assoc]

theorem renderCount_row (s : State) (c : Container) (ty : Int) (l : List Int) (acc : RenderAcc)
    (inv : RenderInv s c acc) (hcnt : acc.created = s.created + countAbsent s acc.needed) :
    (l.foldl (renderTile s c ty) acc).created
      = s.created + countAbsent s (l.foldl (renderTile s c ty) acc).needed := by
  induction l generalizing acc with
  | nil => exact hcnt
  | cons tx tl ih =>
    exact ih _ (renderInv_tile s c ty tx acc inv) (renderCount_tile s c ty tx acc inv hcnt)

theorem renderCount_rows (s : State) (c : Container) (l : List Int) (acc : RenderAcc)
    (inv : RenderInv s c acc) (hcnt : acc.created = s.created + countAbsent s acc.needed) :
    (l.foldl (renderRow s c) acc).created
      = s.created + countAbsent s (l.foldl (renderRow s c) acc).needed := by
  induction l generalizing acc with
  | nil => exact hcnt
  | cons ty tl ih =>
    exact ih _ (renderInv_row s c ty _ acc inv) (renderCount_row s c ty _ acc inv hcnt)

theorem render_created (s : State) (c : Container) :
    (_render s c).created = s.created + countAbsent s (needed s c) :=
  renderCount_rows s c _ _ (renderInv_init s c) rfl

/-- C7. In one `_render` pass, a key that is in the tile map before the pass
and in the `needed` set of the pass is mapped afterwards to the same element
(same identity, same load address), with only its position rewritten.  Every
element in the map after the pass is either such a reused element or was
created during the pass for a needed key that the map did not hold, and the
number of elements created during the pass is the number of needed keys that
the map did not hold. -/
theorem render_reuses_handles (s : State) (c : Container) :
    (∀ k img, mapGet s.tiles k = some img → k ∈ needed s c →
        ∃ img', mapGet (_render s c).tiles k = some img' ∧ img'.id = img.id
          ∧ img'.src = img.src ∧ Positioned s c k img')
    ∧ (∀ k img', mapGet (_render s c).tiles k = some img' →
        (∃ img, mapGet s.tiles k = some img ∧ img'.id = img.id ∧ img'.src = img.src)
        ∨ (mapGet s.tiles k = none ∧ k ∈ needed s c ∧ s.created ≤ img'.id
            ∧ img'.id < (_render s c).created ∧ img'.src = ⟨k.z, k.tx, k.ty, s.dpr⟩))
    ∧ (_render s c).created = s.created + countAbsent s (needed s c) := by
  refine ⟨?_, ?_, render_created s c⟩
  · intro k img hk hn
    obtain ⟨img', h1, h2, h3⟩ := (renderInv_loop s c).2.2 k hn
    refine ⟨img', ?_, ?_⟩
    · rw [mapGet_render, if_pos hn]
      exact h1
    · rcases h3 with ⟨i0, e1, e2, e3⟩ | ⟨e1, _⟩
      · rw [hk] at e1
        cases e1
        exact ⟨e2, e3, h2⟩
      · rw [hk] at e1
        cases e1
  · intro k img' hk
    rw [mapGet_render] at hk
    by_cases hn : k ∈ needed s c
    · rw [if_pos hn] at hk
      obtain ⟨img'', h1, _, h3⟩ := (renderInv_loop s c).2.2 k hn
      rw [hk] at h1
      cases h1
      rcases h3 with h3 | ⟨e1, e2, e3, e4⟩
      · exact Or.inl h3
      · exact Or.inr ⟨e1, hn, e2, e3, e4⟩
    · rw [if_neg hn] at hk
      cases hk

/-! ## C3: needed keys lie in the grid -/

theorem nt_le_two_pow (z : Int) (h0 : 0 ≤ z) : nt z ≤ 2 ^ z.toNat := by
  unfold nt
  rcases shl_one_cases z with h | ⟨_, h⟩
  · rw [h]
    have : (0 : Int) < 2 ^ z.toNat := by positivity
    omega
  · rw [h]
    have hle : (z % 32).toNat ≤ z.toNat := by omega
    exact pow_le_pow_right₀ (by norm_num) hle

/-- C3. For a zoom `z` in `[MIN_ZOOM, MAX_ZOOM]`, any centre and any viewport
size, every key that `_render` puts into the `needed` set, and every key of
the tile map after the pass, is `(z, tx, ty)` with `0 ≤ tx ≤ 2^z - 1` and
`0 ≤ ty ≤ 2^z - 1`. -/
theorem needed_in_grid (s : State) (c : Container)
    (h0 : MIN_ZOOM ≤ s.zoom) (_h1 : s.zoom ≤ MAX_ZOOM) :
    (∀ k ∈ needed s c,
        k.z = s.zoom ∧ 0 ≤ k.tx ∧ k.tx ≤ 2 ^ s.zoom.toNat - 1
          ∧ 0 ≤ k.ty ∧ k.ty ≤ 2 ^ s.zoom.toNat - 1)
    ∧ (∀ k ∈ (_render s c).tiles.map Prod.fst,
        k.z = s.zoom ∧ 0 ≤ k.tx ∧ k.tx ≤ 2 ^ s.zoom.toNat - 1
          ∧ 0 ≤ k.ty ∧ k.ty ≤ 2 ^ s.zoom.toNat - 1) := by
  have key : ∀ k ∈ needed s c,
      k.z = s.zoom ∧ 0 ≤ k.tx ∧ k.tx ≤ 2 ^ s.zoom.toNat - 1
        ∧ 0 ≤ k.ty ∧ k.ty ≤ 2 ^ s.zoom.toNat - 1 := by
    intro k hk
    obtain ⟨hz, ⟨hx1, hx2⟩, hy1, hy2⟩ := (mem_needed s c k).mp hk
    have hnt := nt_le_two_pow s.zoom (by simpa [MIN_ZOOM] using h0)
    have a1 : (0 : Int) ≤ tMinX s c := le_max_left _ _
    have a2 : (0 : Int) ≤ tMinY s c := le_max_left _ _
    have a3 : tMaxX s c ≤ nt s.zoom - 1 := min_le_left _ _
    have a4 : tMaxY s c ≤ nt s.zoom - 1 := min_le_left _ _
    exact ⟨hz, by omega, by omega, by omega, by omega⟩
  refine ⟨key, ?_⟩
  intro k hk
  exact key k ((mem_needed_iff_mapGet_render s c k).mp ((mem_keys_iff _ k).mp hk))

theorem needed_in_grid_witness :
    MIN_ZOOM ≤ (initState 1).zoom ∧ (initState 1).zoom ≤ MAX_ZOOM
    ∧ (∀ k ∈ needed (initState 1) viewport512,
        k.z = (initState 1).zoom ∧ 0 ≤ k.tx ∧ k.tx ≤ 2 ^ (initState 1).zoom.toNat - 1
          ∧ 0 ≤ k.ty ∧ k.ty ≤ 2 ^ (initState 1).zoom.toNat - 1) :=
  ⟨by decide, by decide,
    (needed_in_grid (initState 1) viewport512 (by decide) (by decide)).1⟩

/-! ## C4: the needed set against the tiles that meet the viewport -/

theorem interval_meets (t : Int) (L w : ℚ) (hw : 0 ≤ w) :
    (∃ x : ℚ, ((t : ℚ) * 256 ≤ x ∧ x < ((t : ℚ) + 1) * 256) ∧ (L ≤ x ∧ x ≤ L + w))
      ↔ (⌊L / 256⌋ ≤ t ∧ t ≤ ⌊(L + w) / 256⌋) := by
  have e1 : ⌊L / 256⌋ ≤ t ↔ L < ((t : ℚ) + 1) * 256 := by
    rw [← Int.lt_add_one_iff, Int.floor_lt, div_lt_iff₀ (by norm_num)]
    push_cast
    rfl
  have e2 : t ≤ ⌊(L + w) / 256⌋ ↔ (t : ℚ) * 256 ≤ L + w := by
    rw [Int.le_floor, le_div_iff₀ (by norm_num)]
  rw [e1, e2]
  constructor
  · rintro ⟨x, ⟨h1, h2⟩, h3, h4⟩
    exact ⟨lt_of_le_of_lt h3 h2, le_trans h1 h4⟩
  · rintro ⟨h1, h2⟩
    refine ⟨max L ((t : ℚ) * 256), ⟨le_max_right _ _, ?_⟩, le_max_left _ _, ?_⟩
    · exact max_lt h1 (by linarith)
    · exact max_le (by linarith) h2

theorem topLeft_eq_spec (s : State) (c : Container) (h0 : 0 ≤ s.zoom) (h1 : s.zoom ≤ 30) :
    topLeftX s c = specTopLeftX s c ∧ topLeftY s c = specTopLeftY s c := by
  have hws : (ws s.zoom : ℚ) = specWorldPixelSize s.zoom := by
    rw [(ws_nt_of_le_30 s.zoom h0 h1).1]
    simp [specWorldPixelSize, TILE_SIZE]
  simp [topLeftX, topLeftY, specTopLeftX, specTopLeftY, hws]

/-- For every zoom from 0 to 30 the `needed` set of `_render` is exactly the
set of tiles of the `2^z x 2^z` grid whose region meets the viewport
rectangle. -/
theorem needed_exact_of_le_30 (s : State) (c : Container) (h0 : 0 ≤ s.zoom) (h1 : s.zoom ≤ 30)
    (k : TileKey) : k ∈ needed s c ↔ SpecVisible s c k := by
  obtain ⟨hx, hy⟩ := topLeft_eq_spec s c h0 h1
  have hnt : nt s.zoom = 2 ^ s.zoom.toNat := (ws_nt_of_le_30 s.zoom h0 h1).2
  have mx := interval_meets k.tx (specTopLeftX s c) c.clientWidth (Nat.cast_nonneg _)
  have my := interval_meets k.ty (specTopLeftY s c) c.clientHeight (Nat.cast_nonneg _)
  have hmeet : TileMeetsViewport s c k
      ↔ (⌊specTopLeftX s c / 256⌋ ≤ k.tx ∧ k.tx ≤ ⌊(specTopLeftX s c + c.clientWidth) / 256⌋)
        ∧ (⌊specTopLeftY s c / 256⌋ ≤ k.ty
            ∧ k.ty ≤ ⌊(specTopLeftY s c + c.clientHeight) / 256⌋) := by
    rw [← mx, ← my]
    unfold TileMeetsViewport
    constructor
    · rintro ⟨x, y, a1, a2, a3, a4⟩
      exact ⟨⟨x, a1, a3⟩, ⟨y, a2, a4⟩⟩
    · rintro ⟨⟨x, a1, a3⟩, ⟨y, a2, a4⟩⟩
      exact ⟨x, y, a1, a2, a3, a4⟩
  rw [mem_needed]
  unfold SpecVisible
  rw [hmeet]
  unfold tMinX tMaxX tMinY tMaxY
  rw [hx, hy, hnt]
  simp only [TILE_SIZE, Int.cast_ofNat, max_le_iff, le_min_iff]
  tauto

/-- C4 (failing input). At zoom 31 with the centre at `(1/2, 1/2)` and a
512 x 512 viewport, `_render` computes an empty `needed` set and leaves the
tile map empty, although the tile `(31, 2^30, 2^30)` lies in the grid and its
region meets the viewport rectangle. -/
theorem needed_misses_tile_at_zoom_31 :
    MIN_ZOOM ≤ zoom31State.zoom ∧ zoom31State.zoom ≤ MAX_ZOOM
    ∧ needed zoom31State viewport512 = []
    ∧ (_render zoom31State viewport512).tiles = []
    ∧ SpecVisible zoom31State viewport512 ⟨31, 1073741824, 1073741824⟩ := by
  refine ⟨by decide, by decide, by with_unfolding_all decide, by with_unfolding_all decide, ?_⟩
  refine ⟨rfl, by decide, by decide, 274877906944, 274877906944, ?_⟩
  norm_num [specTopLeftX, specTopLeftY, specWorldPixelSize, zoom31State, initState, viewport512,
    TILE_SIZE, show Int.toNat 31 = 31 from rfl]

/-! ## C5: the initial camera in a 512 x 512 viewport -/

/-- C5 (as stated, refuted). For the camera `(1/2, 1/2, 2)` and a 512 x 512
viewport the `needed` set of `_render` does not have 4 keys, and neither has
the tile map after the pass. -/
theorem needed_initial_not_four :
    ¬ ((needed (initState 1) viewport512).length = 4)
    ∧ ¬ (((_render (initState 1) viewport512).tiles.map Prod.fst).length = 4) := by
  constructor <;> with_unfolding_all decide

/-- C5 (amended). For the camera `(1/2, 1/2, 2)` and a 512 x 512 viewport,
whatever the rest of the state, the grid at zoom 2 has `4 x 4` tiles and the
`needed` set of `_render` is the 9 keys `(2, tx, ty)` with `tx, ty` in
`{1, 2, 3}`, in row order. -/
theorem needed_initial_nine (s : State) (c : Container)
    (hcx : s.cx = 1 / 2) (hcy : s.cy = 1 / 2) (hz : s.zoom = 2)
    (hw : c.clientWidth = 512) (hh : c.clientHeight = 512) :
    nt s.zoom = 4
    ∧ needed s c
        = [⟨2, 1, 1⟩, ⟨2, 2, 1⟩, ⟨2, 3, 1⟩, ⟨2, 1, 2⟩, ⟨2, 2, 2⟩, ⟨2, 3, 2⟩,
            ⟨2, 1, 3⟩, ⟨2, 2, 3⟩, ⟨2, 3, 3⟩]
    ∧ (needed s c).length = 9 := by
  have hws : (ws 2 : ℚ) = 1024 := by
    have : ws 2 = 1024 := by decide
    rw [this]
    norm_num
  have hnt : nt 2 = 4 := by decide
  have f1 : ⌊((1 : ℚ) / 2 * 1024 - 512 / 2) / 256⌋ = 1 := by
    rw [Int.floor_eq_iff]
    norm_num
  have f3 : ⌊((1 : ℚ) / 2 * 1024 - 512 / 2 + 512) / 256⌋ = 3 := by
    rw [Int.floor_eq_iff]
    norm_num
  have x1 : tMinX s c = 1 := by
    simp only [tMinX, topLeftX, hcx, hz, hw, hws, TILE_SIZE, Int.cast_ofNat, Nat.cast_ofNat, f1]
    decide
  have y1 : tMinY s c = 1 := by
    simp only [tMinY, topLeftY, hcy, hz, hh, hws, TILE_SIZE, Int.cast_ofNat, Nat.cast_ofNat, f1]
    decide
  have x3 : tMaxX s c = 3 := by
    simp only [tMaxX, topLeftX, hcx, hz, hw, hws, hnt, TILE_SIZE, Int.cast_ofNat,
      Nat.cast_ofNat, f3]
    decide
  have y3 : tMaxY s c = 3 := by
    simp only [tMaxY, topLeftY, hcy, hz, hh, hws, hnt, TILE_SIZE, Int.cast_ofNat,
      Nat.cast_ofNat, f3]
    decide
  have hn : needed s c
      = [⟨2, 1, 1⟩, ⟨2, 2, 1⟩, ⟨2, 3, 1⟩, ⟨2, 1, 2⟩, ⟨2, 2, 2⟩, ⟨2, 3, 2⟩,
          ⟨2, 1, 3⟩, ⟨2, 2, 3⟩, ⟨2, 3, 3⟩] := by
    rw [needed_eq, x1, y1, x3, y3, hz]
    decide
  refine ⟨by rw [hz]; exact hnt, hn, ?_⟩
  rw [hn]
  rfl

theorem needed_initial_nine_witness :
    (initState 1).cx = 1 / 2 ∧ (initState 1).cy = 1 / 2 ∧ (initState 1).zoom = 2
    ∧ viewport512.clientWidth = 512 ∧ viewport512.clientHeight = 512
    ∧ (needed (initState 1) viewport512).length = 9 :=
  ⟨rfl, rfl, rfl, rfl, rfl,
    (needed_initial_nine (initState 1) viewport512 rfl rfl rfl rfl rfl).2.2⟩

/-! ## C11: a reversed wheel gesture discards the accumulator -/

/-- C11. If the accumulator is non-zero and a wheel event has a `deltaY` of
the opposite sign with `|deltaY| < SCROLL_THRESHOLD`, the accumulator after the
event is `deltaY` itself (the old value is discarded, not netted) and nothing
else in the state changes, so no zoom step is issued.  From accumulator `0`,
the deltas `100` then `-50` leave the accumulator at `-50`, with the camera
unchanged. -/
theorem handleWheel_sign_reversal (s : State) (c : Container) (e : WheelEvent)
    (hopp : (0 < s.scrollAccum ∧ e.deltaY < 0) ∨ (s.scrollAccum < 0 ∧ 0 < e.deltaY))
    (hsmall : |e.deltaY| < SCROLL_THRESHOLD) :
    wheelAccum s e = e.deltaY
    ∧ _handleWheel s c e = { s with scrollAccum := e.deltaY }
    ∧ (s.scrollAccum = 0 → ∀ x1 y1 x2 y2 : ℚ,
        _handleWheel (_handleWheel s c (wheelAt 100 x1 y1)) c (wheelAt (-50) x2 y2)
          = { s with scrollAccum := -50 }) := by
  have ha : wheelAccum s e = e.deltaY := by
    rcases hopp with ⟨h1, h2⟩ | ⟨h1, h2⟩
    · simp [wheelAccum, h1, h2]
    · simp [wheelAccum, h1, h2]
  refine ⟨ha, ?_, ?_⟩
  · rw [handleWheel_below s c e (by rw [ha]; exact hsmall), ha]
  · intro h0 x1 y1 x2 y2
    have a1 : wheelAccum s (wheelAt 100 x1 y1) = 100 := by
      simp [wheelAccum, wheelAt, h0]
    have e1 : _handleWheel s c (wheelAt 100 x1 y1) = { s with scrollAccum := 100 } := by
      rw [handleWheel_below s c _ (by rw [a1]; norm_num [SCROLL_THRESHOLD]), a1]
    have a2 : wheelAccum { s with scrollAccum := 100 } (wheelAt (-50) x2 y2) = -50 := by
      norm_num [wheelAccum, wheelAt]
    rw [e1, handleWheel_below _ c _ (by rw [a2]; norm_num [SCROLL_THRESHOLD]), a2]

theorem handleWheel_sign_reversal_witness :
    ((0 < ({ initState 1 with scrollAccum := 100 } : State).scrollAccum
        ∧ (wheelAt (-50) 0 0).deltaY < 0)
      ∨ (({ initState 1 with scrollAccum := 100 } : State).scrollAccum < 0
        ∧ 0 < (wheelAt (-50) 0 0).deltaY))
    ∧ |(wheelAt (-50) 0 0).deltaY| < SCROLL_THRESHOLD
    ∧ _handleWheel { initState 1 with scrollAccum := 100 } viewport512 (wheelAt (-50) 0 0)
        = { ({ initState 1 with scrollAccum := 100 } : State) with
            scrollAccum := (wheelAt (-50) 0 0).deltaY } :=
  have h1 : (0 < ({ initState 1 with scrollAccum := 100 } : State).scrollAccum
        ∧ (wheelAt (-50) 0 0).deltaY < 0)
      ∨ (({ initState 1 with scrollAccum := 100 } : State).scrollAccum < 0
        ∧ 0 < (wheelAt (-50) 0 0).deltaY) := by
    left
    norm_num [wheelAt]
  have h2 : |(wheelAt (-50) 0 0).deltaY| < SCROLL_THRESHOLD := by
    norm_num [wheelAt, SCROLL_THRESHOLD, abs_lt]
  ⟨h1, h2, (handleWheel_sign_reversal _ viewport512 _ h1 h2).2.1⟩

/-! ## The pinch branch of `_handleTouchMove` -/

theorem handleTouchMove_pinch_eq (s : State) (c : Container) (t0 t1 : Touch) (q0 : ℚ)
    (hstart : s.pinchStartDist = some q0) (hq0 : q0 ≠ 0) :
    _handleTouchMove s c ⟨[t0, t1]⟩
      = if pinchNewZoom s.pinchStartZoom (pinchZoomDelta (_touchDist [t0, t1] / q0)) ≠ s.zoom
        then _render
          { s with
            zoom := pinchNewZoom s.pinchStartZoom (pinchZoomDelta (_touchDist [t0, t1] / q0)) } c
        else s := by
  unfold _handleTouchMove
  simp only [hstart]
  cases s.dragging <;> simp [hq0]

/-! ## C13: a viewport without area -/

/-- C13 (as stated, refuted). For the initial camera and a `0 x 0` container
the `needed` set of `_render` is the single key `(2, 2, 2)`, not empty, and
the tile map after the pass is not empty either. -/
theorem needed_zero_area_not_empty :
    (viewport0.clientWidth = 0 ∧ viewport0.clientHeight = 0)
    ∧ needed (initState 1) viewport0 = [⟨2, 2, 2⟩]
    ∧ ¬ (needed (initState 1) viewport0 = [])
    ∧ ¬ ((_render (initState 1) viewport0).tiles = []) := by
  refine ⟨⟨rfl, rfl⟩, ?_, ?_, ?_⟩ <;> with_unfolding_all decide

/-- C13 (amended). For every camera and every container without area, the
keys of the `needed` set of `_render` all lie in the single tile column
`⌊cx * ws / 256⌋` when `clientWidth = 0`, and in the single tile row
`⌊cy * ws / 256⌋` when `clientHeight = 0`; the tile map after the pass holds
exactly the needed keys. -/
theorem needed_zero_area (s : State) (c : Container) :
    (c.clientWidth = 0 → ∀ k ∈ needed s c, k.tx = ⌊s.cx * (ws s.zoom : ℚ) / 256⌋)
    ∧ (c.clientHeight = 0 → ∀ k ∈ needed s c, k.ty = ⌊s.cy * (ws s.zoom : ℚ) / 256⌋)
    ∧ (∀ k, k ∈ (_render s c).tiles.map Prod.fst ↔ k ∈ needed s c) := by
  refine ⟨?_, ?_, ?_⟩
  · intro hw k hk
    obtain ⟨_, ⟨hx1, hx2⟩, _⟩ := (mem_needed s c k).mp hk
    have a1 : ⌊s.cx * (ws s.zoom : ℚ) / 256⌋ ≤ tMinX s c := by
      simp [tMinX, topLeftX, hw, TILE_SIZE]
    have a2 : tMaxX s c ≤ ⌊s.cx * (ws s.zoom : ℚ) / 256⌋ := by
      simp [tMaxX, topLeftX, hw, TILE_SIZE]
    omega
  · intro hh k hk
    obtain ⟨_, _, hy1, hy2⟩ := (mem_needed s c k).mp hk
    have a1 : ⌊s.cy * (ws s.zoom : ℚ) / 256⌋ ≤ tMinY s c := by
      simp [tMinY, topLeftY, hh, TILE_SIZE]
    have a2 : tMaxY s c ≤ ⌊s.cy * (ws s.zoom : ℚ) / 256⌋ := by
      simp [tMaxY, topLeftY, hh, TILE_SIZE]
    omega
  · intro k
    rw [mem_keys_iff, mem_needed_iff_mapGet_render]

theorem needed_zero_area_witness :
    (viewport0.clientWidth = 0 ∨ viewport0.clientHeight = 0)
    ∧ (viewport0.clientWidth = 0 →
        ∀ k ∈ needed (initState 1) viewport0,
          k.tx = ⌊(initState 1).cx * (ws (initState 1).zoom : ℚ) / 256⌋) :=
  ⟨Or.inl rfl, (needed_zero_area (initState 1) viewport0).1⟩

/-! ## C14: what is left after mount and teardown -/

theorem mounted_listeners (r : ℚ) (c : Container) :
    (mounted r c).listeners
      = [⟨.container, .mousedown, .arrowMouseDown⟩, ⟨.container, .wheel, .arrowWheel⟩,
          ⟨.container, .touchstart, .arrowTouchStart⟩, ⟨.window, .mousemove, ._onMouseMove⟩,
          ⟨.window, .mouseup, ._onMouseUp⟩, ⟨.window, .touchmove, ._onTouchMove⟩,
          ⟨.window, .touchend, ._onTouchEnd⟩,
          ⟨.container, .contextmenu, .arrowContextMenu⟩] := by
  unfold mounted
  dsimp only
  decide

/-- C14 (as stated, refuted). After `mounted` in a 512 x 512 container
followed by `destroyed`, four listeners are still registered (those on the
container) and the tile map still holds 9 handles. -/
theorem teardown_leaves_listeners_and_tiles :
    (destroyed (mounted 1 viewport512)).listeners.length = 4
    ∧ ¬ ((destroyed (mounted 1 viewport512)).listeners = [])
    ∧ (destroyed (mounted 1 viewport512)).state.tiles.length = 9
    ∧ ¬ ((destroyed (mounted 1 viewport512)).state.tiles = []) := by
  refine ⟨?_, ?_, ?_, ?_⟩ <;> with_unfolding_all decide

/-- C14 (amended). For every device pixel ratio and container, after
`mounted` then `destroyed` the four window listeners (`mousemove`, `mouseup`,
`touchmove`, `touchend`) that `mounted` attached are detached and the resize
observer is disconnected; the four container listeners (`mousedown`, `wheel`,
`touchstart`, `contextmenu`) stay registered on the container, and the tile
map is the one left by the initial `_render`. -/
theorem teardown_detaches_window_listeners (r : ℚ) (c : Container) :
    (∀ l ∈ (mounted r c).listeners, l.target = .window →
        l ∉ (destroyed (mounted r c)).listeners)
    ∧ (∀ l ∈ (destroyed (mounted r c)).listeners, l.target = .container)
    ∧ (mounted r c).observing = true
    ∧ (destroyed (mounted r c)).observing = false
    ∧ (destroyed (mounted r c)).listeners
        = [⟨.container, .mousedown, .arrowMouseDown⟩, ⟨.container, .wheel, .arrowWheel⟩,
            ⟨.container, .touchstart, .arrowTouchStart⟩,
            ⟨.container, .contextmenu, .arrowContextMenu⟩]
    ∧ (destroyed (mounted r c)).state.tiles = (mounted r c).state.tiles
    ∧ (∀ k, k ∈ (destroyed (mounted r c)).state.tiles.map Prod.fst
        ↔ k ∈ needed (initState (dprOf r)) c) := by
  have hl : (destroyed (mounted r c)).listeners
      = [⟨.container, .mousedown, .arrowMouseDown⟩, ⟨.container, .wheel, .arrowWheel⟩,
          ⟨.container, .touchstart, .arrowTouchStart⟩,
          ⟨.container, .contextmenu, .arrowContextMenu⟩] := by
    unfold destroyed
    dsimp only
    rw [mounted_listeners]
    decide
  refine ⟨?_, ?_, rfl, rfl, hl, rfl, ?_⟩
  · intro l hl1 hw
    rw [hl]
    rw [mounted_listeners] at hl1
    revert hw
    fin_cases hl1 <;> decide
  · intro l hl1
    rw [hl] at hl1
    fin_cases hl1 <;> rfl
  · intro k
    show k ∈ (_render (initState (dprOf r)) c).tiles.map Prod.fst ↔ _
    rw [mem_keys_iff, mem_needed_iff_mapGet_render]

/-! ## C15: the zoom stays in range -/

theorem clampZoom_mem (z : Int) : MIN_ZOOM ≤ clampZoom z ∧ clampZoom z ≤ MAX_ZOOM := by
  unfold clampZoom MIN_ZOOM MAX_ZOOM
  constructor
  · exact le_max_left _ _
  · exact max_le (by norm_num) (min_le_left _ _)

theorem pinchNewZoom_mem (z0 : Int) (d : Option Int) :
    MIN_ZOOM ≤ pinchNewZoom z0 d ∧ pinchNewZoom z0 d ≤ MAX_ZOOM := by
  cases d with
  | none =>
    show MIN_ZOOM ≤ MIN_ZOOM ∧ MIN_ZOOM ≤ MAX_ZOOM
    exact ⟨le_refl _, by decide⟩
  | some d => exact clampZoom_mem _

theorem handleMouseDown_zoom (s : State) (e : MouseEvent) :
    (_handleMouseDown s e).zoom = s.zoom := by
  unfold _handleMouseDown
  split_ifs <;> rfl

theorem handleMouseMove_zoom (s : State) (c : Container) (e : MouseEvent) :
    (_handleMouseMove s c e).zoom = s.zoom := by
  unfold _handleMouseMove
  split_ifs <;> rfl

theorem handleMouseUp_zoom (s : State) : (_handleMouseUp s).zoom = s.zoom := by
  unfold _handleMouseUp
  split_ifs <;> rfl

theorem handleTouchStart_zoom (s : State) (e : TouchEvent) :
    (_handleTouchStart s e).zoom = s.zoom := by
  unfold _handleTouchStart
  split <;> rfl

theorem handleWheel_zoom_mem (s : State) (c : Container) (e : WheelEvent)
    (h : MIN_ZOOM ≤ s.zoom ∧ s.zoom ≤ MAX_ZOOM) :
    MIN_ZOOM ≤ (_handleWheel s c e).zoom ∧ (_handleWheel s c e).zoom ≤ MAX_ZOOM := by
  by_cases hthr : |wheelAccum s e| < SCROLL_THRESHOLD
  · rw [handleWheel_below s c e hthr]
    exact h
  · rw [(handleWheel_at_or_above s c e (not_lt.mp hthr)).2]
    exact clampZoom_mem _

theorem handleTouchMove_zoom_mem (s : State) (c : Container) (e : TouchEvent)
    (h : MIN_ZOOM ≤ s.zoom ∧ s.zoom ≤ MAX_ZOOM) :
    MIN_ZOOM ≤ (_handleTouchMove s c e).zoom ∧ (_handleTouchMove s c e).zoom ≤ MAX_ZOOM := by
  unfold _handleTouchMove
  split
  · exact h
  · dsimp only
    split_ifs
    · exact h
    · exact pinchNewZoom_mem _ _
    · exact h
  · exact h

theorem dispatch_zoom_mem (s : State) (ev : Event)
    (h : MIN_ZOOM ≤ s.zoom ∧ s.zoom ≤ MAX_ZOOM) :
    MIN_ZOOM ≤ (dispatch s ev).zoom ∧ (dispatch s ev).zoom ≤ MAX_ZOOM := by
  cases ev with
  | mousedown e =>
    show MIN_ZOOM ≤ (_handleMouseDown s e).zoom ∧ (_handleMouseDown s e).zoom ≤ MAX_ZOOM
    rw [handleMouseDown_zoom]
    exact h
  | mousemove c e =>
    show MIN_ZOOM ≤ (_handleMouseMove s c e).zoom ∧ (_handleMouseMove s c e).zoom ≤ MAX_ZOOM
    rw [handleMouseMove_zoom]
    exact h
  | mouseup =>
    show MIN_ZOOM ≤ (_handleMouseUp s).zoom ∧ (_handleMouseUp s).zoom ≤ MAX_ZOOM
    rw [handleMouseUp_zoom]
    exact h
  | wheel c e => exact handleWheel_zoom_mem s c e h
  | touchstart e =>
    show MIN_ZOOM ≤ (_handleTouchStart s e).zoom ∧ (_handleTouchStart s e).zoom ≤ MAX_ZOOM
    rw [handleTouchStart_zoom]
    exact h
  | touchmove c e => exact handleTouchMove_zoom_mem s c e h
  | touchend => exact h
  | contextmenu => exact h
  | resize c => exact h

theorem run_zoom_mem (evs : List Event) (s : State)
    (h : MIN_ZOOM ≤ s.zoom ∧ s.zoom ≤ MAX_ZOOM) :
    MIN_ZOOM ≤ (run s evs).zoom ∧ (run s evs).zoom ≤ MAX_ZOOM := by
  induction evs generalizing s with
  | nil => exact h
  | cons ev tl ih => exact ih _ (dispatch_zoom_mem s ev h)

/-- C15. In every state reached from the mounted state (zoom 2) by any
sequence of mouse, wheel, touch, context-menu and resize events, the zoom is
an integer with `MIN_ZOOM ≤ zoom ≤ MAX_ZOOM`, that is `0 ≤ zoom ≤ 45`. -/
theorem zoom_in_range_reachable (r : ℚ) (c : Container) (evs : List Event) :
    (mounted r c).state.zoom = 2
    ∧ MIN_ZOOM ≤ (run (mounted r c).state evs).zoom
    ∧ (run (mounted r c).state evs).zoom ≤ MAX_ZOOM
    ∧ 0 ≤ (run (mounted r c).state evs).zoom
    ∧ (run (mounted r c).state evs).zoom ≤ 45 := by
  have h2 : (mounted r c).state.zoom = 2 := rfl
  have h := run_zoom_mem evs (mounted r c).state (by rw [h2]; decide)
  exact ⟨h2, h.1, h.2, h.1, h.2⟩

/-! ## C16: a pinch that starts with both touches at one point -/

theorem handleTouchMove_pinch_zero (s : State) (c : Container) (t0 t1 : Touch)
    (hstart : s.pinchStartDist = some 0) : _handleTouchMove s c ⟨[t0, t1]⟩ = s := by
  unfold _handleTouchMove
  simp only [hstart]
  cases s.dragging <;> simp

theorem touchDist_same (t : Touch) : _touchDist [t, t] = 0 := by
  simp [_touchDist]

/-- C16. `_handleTouchStart` with both touches at the same point records the
distance `0`.  In every state whose recorded pinch distance is `0`, every
two-touch move, whatever its touch positions, returns the state unchanged, and
so does every sequence of such moves: `cx`, `cy` and `zoom` keep their
(rational, hence finite) values. -/
theorem degenerate_pinch_noop (s : State) (hstart : s.pinchStartDist = some 0) :
    (∀ (c : Container) (t0 t1 : Touch), _handleTouchMove s c ⟨[t0, t1]⟩ = s)
    ∧ (∀ moves : List (Container × Touch × Touch),
        moves.foldl (fun st m => _handleTouchMove st m.1 ⟨[m.2.1, m.2.2]⟩) s = s)
    ∧ (∀ (s0 : State) (t : Touch),
        (_handleTouchStart s0 ⟨[t, t]⟩).pinchStartDist = some 0
        ∧ (_handleTouchStart s0 ⟨[t, t]⟩).cx = s0.cx
        ∧ (_handleTouchStart s0 ⟨[t, t]⟩).cy = s0.cy
        ∧ (_handleTouchStart s0 ⟨[t, t]⟩).zoom = s0.zoom) := by
  refine ⟨fun c t0 t1 => handleTouchMove_pinch_zero s c t0 t1 hstart, ?_, ?_⟩
  · intro moves
    induction moves with
    | nil => rfl
    | cons m tl ih =>
      rw [List.foldl_cons, handleTouchMove_pinch_zero s m.1 m.2.1 m.2.2 hstart]
      exact ih
  · intro s0 t
    refine ⟨?_, rfl, rfl, rfl⟩
    show some (_touchDist [t, t]) = some 0
    rw [touchDist_same]

theorem degenerate_pinch_noop_witness :
    (_handleTouchStart (initState 1) ⟨[⟨3, 4⟩, ⟨3, 4⟩]⟩).pinchStartDist = some 0
    ∧ _handleTouchMove (_handleTouchStart (initState 1) ⟨[⟨3, 4⟩, ⟨3, 4⟩]⟩) viewport512
        ⟨[⟨0, 0⟩, ⟨6, 8⟩]⟩
      = _handleTouchStart (initState 1) ⟨[⟨3, 4⟩, ⟨3, 4⟩]⟩ :=
  have h : (_handleTouchStart (initState 1) ⟨[⟨3, 4⟩, ⟨3, 4⟩]⟩).pinchStartDist = some 0 := by
    show some (_touchDist [⟨3, 4⟩, ⟨3, 4⟩]) = some 0
    rw [touchDist_same]
  ⟨h, (degenerate_pinch_noop _ h).1 viewport512 ⟨0, 0⟩ ⟨6, 8⟩⟩

/-! ## C17: the anchor of the pinch zoom -/

theorem handleWheel_centre (s : State) (c : Container) (e : WheelEvent)
    (hx : e.clientX - c.rectLeft = (c.clientWidth : ℚ) / 2)
    (hy : e.clientY - c.rectTop = (c.clientHeight : ℚ) / 2) :
    (_handleWheel s c e).cx = s.cx ∧ (_handleWheel s c e).cy = s.cy := by
  have hw := ws_ne_zero s.zoom
  by_cases hthr : |wheelAccum s e| < SCROLL_THRESHOLD
  · rw [handleWheel_below s c e hthr]
    exact ⟨rfl, rfl⟩
  · by_cases hz : clampZoom (s.zoom + wheelZoomDelta (wheelAccum s e)) = s.zoom
    · rw [handleWheel_same s c e (not_lt.mp hthr) hz]
      exact ⟨rfl, rfl⟩
    · rw [handleWheel_step s c e (not_lt.mp hthr) hz]
      simp only [render_cx, render_cy, hx, hy, mouseWorldX, mouseWorldY]
      constructor
      · field_simp
      · field_simp

/-- C17. A pinch move (recorded pinch distance non-zero) leaves `cx` and `cy`
unchanged.  This is the camera of the anchored-zoom formula of `_handleWheel`
for the anchor `(cw / 2, ch / 2)`: the formula returns `cx`, `cy` for every new
zoom, a wheel event at the centre of the container that ends at the same zoom
gives the same `cx`, `cy`, `zoom`, and the plane point under the centre of the
container is the same before and after the pinch move. -/
theorem pinch_anchor_is_centre (s : State) (c : Container) (t0 t1 : Touch) (q0 : ℚ)
    (hstart : s.pinchStartDist = some q0) (hq0 : q0 ≠ 0) :
    ((_handleTouchMove s c ⟨[t0, t1]⟩).cx = s.cx ∧ (_handleTouchMove s c ⟨[t0, t1]⟩).cy = s.cy)
    ∧ (∀ newZoom : Int,
        mouseWorldX s c ((c.clientWidth : ℚ) / 2)
            + ((c.clientWidth : ℚ) / 2 - (c.clientWidth : ℚ) / 2) / (ws newZoom : ℚ) = s.cx
        ∧ mouseWorldY s c ((c.clientHeight : ℚ) / 2)
            + ((c.clientHeight : ℚ) / 2 - (c.clientHeight : ℚ) / 2) / (ws newZoom : ℚ) = s.cy)
    ∧ (∀ e : WheelEvent,
        e.clientX - c.rectLeft = (c.clientWidth : ℚ) / 2 →
        e.clientY - c.rectTop = (c.clientHeight : ℚ) / 2 →
        (_handleWheel s c e).zoom = (_handleTouchMove s c ⟨[t0, t1]⟩).zoom →
        (_handleWheel s c e).cx = (_handleTouchMove s c ⟨[t0, t1]⟩).cx
        ∧ (_handleWheel s c e).cy = (_handleTouchMove s c ⟨[t0, t1]⟩).cy
        ∧ (_handleWheel s c e).zoom = (_handleTouchMove s c ⟨[t0, t1]⟩).zoom)
    ∧ (mouseWorldX (_handleTouchMove s c ⟨[t0, t1]⟩) c ((c.clientWidth : ℚ) / 2)
          = mouseWorldX s c ((c.clientWidth : ℚ) / 2)
        ∧ mouseWorldY (_handleTouchMove s c ⟨[t0, t1]⟩) c ((c.clientHeight : ℚ) / 2)
          = mouseWorldY s c ((c.clientHeight : ℚ) / 2)) := by
  have hc : (_handleTouchMove s c ⟨[t0, t1]⟩).cx = s.cx
      ∧ (_handleTouchMove s c ⟨[t0, t1]⟩).cy = s.cy := by
    rw [handleTouchMove_pinch_eq s c t0 t1 q0 hstart hq0]
    split_ifs <;> exact ⟨rfl, rfl⟩
  have hw := ws_ne_zero s.zoom
  have hw' := ws_ne_zero (_handleTouchMove s c ⟨[t0, t1]⟩).zoom
  refine ⟨hc, ?_, ?_, ?_⟩
  · intro newZoom
    simp only [mouseWorldX, mouseWorldY, sub_self, zero_div, add_zero]
    constructor <;> field_simp
  · intro e hx hy hz
    obtain ⟨h1, h2⟩ := handleWheel_centre s c e hx hy
    exact ⟨by rw [h1, hc.1], by rw [h2, hc.2], hz⟩
  · simp only [mouseWorldX, mouseWorldY, hc.1, hc.2]
    constructor <;> field_simp

theorem pinch_anchor_is_centre_witness :
    pinchState.pinchStartDist = some 25 ∧ (25 : ℚ) ≠ 0
    ∧ (_handleTouchMove pinchState viewport512 ⟨[⟨0, 0⟩, ⟨6, 8⟩]⟩).cx = pinchState.cx
    ∧ (_handleTouchMove pinchState viewport512 ⟨[⟨0, 0⟩, ⟨6, 8⟩]⟩).cy = pinchState.cy :=
  ⟨rfl, by norm_num,
    (pinch_anchor_is_centre pinchState viewport512 ⟨0, 0⟩ ⟨6, 8⟩ 25 rfl (by norm_num)).1⟩

/-! ## C18: one-touch moves after a touch end -/

theorem handleTouchMove_one_idle (s : State) (c : Container) (t : Touch)
    (h : s.dragging = false) : _handleTouchMove s c ⟨[t]⟩ = s := by
  unfold _handleTouchMove
  simp only [h]

/-- C18. After `_handleTouchEnd` the camera is the one before it, and every
`touchmove` with exactly one touch, and every sequence of such moves, returns
the state unchanged.  A new `_handleTouchStart` with one touch records that
touch as the last pointer position, and the next one-touch move shifts the
centre by the displacement from that touch, not from an older position. -/
theorem no_drag_after_touchend (s : State) :
    ((_handleTouchEnd s).cx = s.cx ∧ (_handleTouchEnd s).cy = s.cy
      ∧ (_handleTouchEnd s).zoom = s.zoom)
    ∧ (∀ (c : Container) (t : Touch),
        _handleTouchMove (_handleTouchEnd s) c ⟨[t]⟩ = _handleTouchEnd s)
    ∧ (∀ moves : List (Container × Touch),
        moves.foldl (fun st m => _handleTouchMove st m.1 ⟨[m.2]⟩) (_handleTouchEnd s)
          = _handleTouchEnd s)
    ∧ (∀ (t0 t1 : Touch) (c : Container),
        (_handleTouchStart (_handleTouchEnd s) ⟨[t0]⟩).lastX = t0.clientX
        ∧ (_handleTouchStart (_handleTouchEnd s) ⟨[t0]⟩).lastY = t0.clientY
        ∧ (_handleTouchStart (_handleTouchEnd s) ⟨[t0]⟩).dragging = true
        ∧ (_handleTouchMove (_handleTouchStart (_handleTouchEnd s) ⟨[t0]⟩) c ⟨[t1]⟩).cx
            = s.cx - (t1.clientX - t0.clientX) / (ws s.zoom : ℚ)
        ∧ (_handleTouchMove (_handleTouchStart (_handleTouchEnd s) ⟨[t0]⟩) c ⟨[t1]⟩).cy
            = s.cy - (t1.clientY - t0.clientY) / (ws s.zoom : ℚ)) := by
  have hidle : (_handleTouchEnd s).dragging = false := rfl
  refine ⟨⟨rfl, rfl, rfl⟩, fun c t => handleTouchMove_one_idle _ c t hidle, ?_, ?_⟩
  · intro moves
    induction moves with
    | nil => rfl
    | cons m tl ih =>
      rw [List.foldl_cons, handleTouchMove_one_idle _ m.1 m.2 hidle]
      exact ih
  · intro t0 t1 c
    refine ⟨rfl, rfl, rfl, ?_, ?_⟩
    · rw [handleTouchMove_dragging _ c t1 rfl]
      rfl
    · rw [handleTouchMove_dragging _ c t1 rfl]
      rfl

/-! ## C19: a drag only depends on where it starts and where it ends -/

theorem drag_moves_invariant (moves : List (Container × MouseEvent)) (st : State)
    (hd : st.dragging = true) :
    (moves.foldl (fun st m => _handleMouseMove st m.1 m.2) st).dragging = true
    ∧ (moves.foldl (fun st m => _handleMouseMove st m.1 m.2) st).zoom = st.zoom
    ∧ (moves.foldl (fun st m => _handleMouseMove st m.1 m.2) st).cx
        = st.cx - ((moves.foldl (fun st m => _handleMouseMove st m.1 m.2) st).lastX - st.lastX)
            / (ws st.zoom : ℚ)
    ∧ (moves.foldl (fun st m => _handleMouseMove st m.1 m.2) st).cy
        = st.cy - ((moves.foldl (fun st m => _handleMouseMove st m.1 m.2) st).lastY - st.lastY)
            / (ws st.zoom : ℚ) := by
  induction moves generalizing st with
  | nil => simp [hd]
  | cons m tl ih =>
    rw [List.foldl_cons]
    have hstep := handleMouseMove_dragging st m.1 m.2 hd
    have hd' : (_handleMouseMove st m.1 m.2).dragging = true := by
      rw [hstep]
      exact hd
    obtain ⟨i1, i2, i3, i4⟩ := ih (_handleMouseMove st m.1 m.2) hd'
    refine ⟨i1, ?_, ?_, ?_⟩
    · rw [i2, hstep]
      rfl
    · rw [i3, hstep]
      simp only [render_cx, render_zoom, render_lastX]
      ring
    · rw [i4, hstep]
      simp only [render_cy, render_zoom, render_lastY]
      ring

theorem handleMouseMove_last (st : State) (c : Container) (e : MouseEvent)
    (hd : st.dragging = true) :
    (_handleMouseMove st c e).lastX = e.clientX ∧ (_handleMouseMove st c e).lastY = e.clientY := by
  rw [handleMouseMove_dragging st c e hd]
  exact ⟨rfl, rfl⟩

/-- C19. In a drag session at constant zoom (a primary-button `mousedown` at
`e0`, then the mouse moves `moves` and a last move `e`, with no `mouseup` and
no zoom change in between), the centre after the last move is the initial
centre minus `(e - e0) / ws` on each axis, whatever the intermediate
positions, in exact rational arithmetic; the zoom is unchanged. -/
theorem drag_path_independent (s : State) (e0 : MouseEvent) (hb : e0.button = 0)
    (moves : List (Container × MouseEvent)) (c : Container) (e : MouseEvent) :
    ((moves ++ [(c, e)]).foldl (fun st m => _handleMouseMove st m.1 m.2)
        (_handleMouseDown s e0)).cx
      = s.cx - (e.clientX - e0.clientX) / (ws s.zoom : ℚ)
    ∧ ((moves ++ [(c, e)]).foldl (fun st m => _handleMouseMove st m.1 m.2)
        (_handleMouseDown s e0)).cy
      = s.cy - (e.clientY - e0.clientY) / (ws s.zoom : ℚ)
    ∧ ((moves ++ [(c, e)]).foldl (fun st m => _handleMouseMove st m.1 m.2)
        (_handleMouseDown s e0)).zoom = s.zoom := by
  have hdown : _handleMouseDown s e0
      = { s with dragging := true, lastX := e0.clientX, lastY := e0.clientY } := by
    simp [_handleMouseDown, hb]
  have hd : (_handleMouseDown s e0).dragging = true := by
    rw [hdown]
  obtain ⟨i1, i2, i3, i4⟩ := drag_moves_invariant (moves ++ [(c, e)]) _ hd
  have hlast : ((moves ++ [(c, e)]).foldl (fun st m => _handleMouseMove st m.1 m.2)
      (_handleMouseDown s e0)).lastX = e.clientX
      ∧ ((moves ++ [(c, e)]).foldl (fun st m => _handleMouseMove st m.1 m.2)
      (_handleMouseDown s e0)).lastY = e.clientY := by
    rw [List.foldl_append, List.foldl_cons, List.foldl_nil]
    exact handleMouseMove_last _ c e (drag_moves_invariant moves _ hd).1
  rw [i3, i4, i2, hlast.1, hlast.2, hdown]
  exact ⟨rfl, rfl, rfl⟩

theorem drag_path_independent_witness :
    (⟨0, 10, 20⟩ : MouseEvent).button = 0
    ∧ ((([(viewport512, ⟨0, 500, -7⟩), (viewport512, ⟨0, 3, 900⟩)] :
            List (Container × MouseEvent))
          ++ [(viewport512, (⟨0, 74, -12⟩ : MouseEvent))]).foldl
          (fun st m => _handleMouseMove st m.1 m.2)
          (_handleMouseDown (initState 1) ⟨0, 10, 20⟩)).cx
        = (initState 1).cx - ((⟨0, 74, -12⟩ : MouseEvent).clientX
            - (⟨0, 10, 20⟩ : MouseEvent).clientX) / (ws (initState 1).zoom : ℚ) :=
  ⟨rfl, (drag_path_independent (initState 1) ⟨0, 10, 20⟩ rfl
    [(viewport512, ⟨0, 500, -7⟩), (viewport512, ⟨0, 3, 900⟩)] viewport512 ⟨0, 74, -12⟩).1⟩

/-! ## C20: zoom 31 -/

/-- C20. At `zoom = 31` the tile count `1 << 31` is `-2^31`, so the clamped
maximum index `nt - 1` is negative while the clamped minimum is at least `0`:
for every centre, container and prior tile map, `_render` computes an empty
`needed` set and leaves the tile map empty. -/
theorem render_empty_at_zoom_31 (s : State) (c : Container) (hz : s.zoom = 31) :
    nt s.zoom = -2147483648
    ∧ (tMaxX s c < 0 ∧ 0 ≤ tMinX s c ∧ tMaxY s c < 0 ∧ 0 ≤ tMinY s c)
    ∧ needed s c = []
    ∧ (_render s c).tiles = [] := by
  have hnt : nt s.zoom = -2147483648 := by
    rw [hz]
    decide
  have a1 : (0 : Int) ≤ tMinX s c := le_max_left _ _
  have a2 : (0 : Int) ≤ tMinY s c := le_max_left _ _
  have a3 : tMaxX s c ≤ nt s.zoom - 1 := min_le_left _ _
  have a4 : tMaxY s c ≤ nt s.zoom - 1 := min_le_left _ _
  have hn : needed s c = [] := by
    rw [List.eq_nil_iff_forall_not_mem]
    intro k hk
    obtain ⟨_, ⟨hx1, hx2⟩, _⟩ := (mem_needed s c k).mp hk
    omega
  refine ⟨hnt, ⟨by omega, a1, by omega, a2⟩, hn, ?_⟩
  rw [List.eq_nil_iff_forall_not_mem]
  intro kv hkv
  have hmem : kv.1 ∈ (_render s c).tiles.map Prod.fst := List.mem_map_of_mem _ hkv
  have := (mem_needed_iff_mapGet_render s c kv.1).mp ((mem_keys_iff _ _).mp hmem)
  rw [hn] at this
  exact absurd this (List.not_mem_nil _)

theorem render_empty_at_zoom_31_witness :
    zoom31State.zoom = 31
    ∧ needed zoom31State viewport512 = []
    ∧ (_render zoom31State viewport512).tiles = [] :=
  ⟨rfl, (render_empty_at_zoom_31 zoom31State viewport512 rfl).2.2⟩

end MapHook
